import Mathlib

/-!
Verification development for the qt-plus QML analyzer
(`QMLTreeContext.cpp`, `QMLAnalyzer.cpp`, `QMLBinaryOperation.cpp`).

The C++ sources are shallowly embedded as executable Lean functions:
the lexer (`parseNextToken`, `parseNumber`, string/identifier scanning,
comment skipping), the rule engine (`runGrammar_Reject`,
`runGrammar_SatisfiesConditions`, `runGrammar_CountNested`,
`runGrammar_Recurse`), the macro expander (`processMacros`) and the
parse/analyze driver (`contextParse`, `analyzeFile`).  External effects
(regular-expression matching, filesystem probes, the bison parser) are
abstracted as oracle parameters.
-/

/-! ### String helpers (Qt semantics) -/

/-- ASCII lower-casing of one character, as `QChar::toLower` acts on ASCII. -/
def asciiLower (c : Char) : Char :=
  if 'A' ≤ c ∧ c ≤ 'Z' then Char.ofNat (c.toNat + 32) else c

/-- `QString::toLower` restricted to ASCII data. -/
def strLower (s : String) : String :=
  ⟨s.data.map asciiLower⟩

/-- `QString::replace("\"", "")`: drop all double-quote characters. -/
def stripQuotes (s : String) : String :=
  ⟨s.data.filter (fun c => c ≠ '"')⟩

/-- Digit test of the C `isdigit` on ASCII. -/
def cIsDigit (c : Char) : Bool :=
  '0' ≤ c ∧ c ≤ '9'

/-- Letter test of the C `isalpha` on ASCII. -/
def cIsAlpha (c : Char) : Bool :=
  ('a' ≤ c ∧ c ≤ 'z') ∨ ('A' ≤ c ∧ c ≤ 'Z')

/-- The C `isalnum` on ASCII. -/
def cIsAlnum (c : Char) : Bool :=
  cIsAlpha c || cIsDigit c

/-- Hexadecimal letter (`a`-`f`, `A`-`F`), the extra digits accepted by
`parseNumber` in hex mode. -/
def cIsHexLetter (c : Char) : Bool :=
  ('a' ≤ c ∧ c ≤ 'f') ∨ ('A' ≤ c ∧ c ≤ 'F')

/-- Numeric value of a decimal digit character. -/
def digitVal (c : Char) : Nat := c.toNat - '0'.toNat

/-- Decimal value of a digit list (most significant first). -/
def decValAux (acc : Nat) : List Char → Nat
  | [] => acc
  | c :: t => decValAux (acc * 10 + digitVal c) t

/-- `QString::toInt()` with the default base 10: optional sign followed by
decimal digits only; any other content makes the conversion fail and the
function return 0. -/
def qtToInt (s : String) : Int :=
  match s.data with
  | [] => 0
  | '-' :: t => if t ≠ [] ∧ t.all cIsDigit then -(decValAux 0 t : Int) else 0
  | '+' :: t => if t ≠ [] ∧ t.all cIsDigit then (decValAux 0 t : Int) else 0
  | l => if l.all cIsDigit then (decValAux 0 l : Int) else 0

/-- Value of one hexadecimal digit character. -/
def hexDigitVal (c : Char) : Nat :=
  if cIsDigit c then digitVal c
  else if 'a' ≤ c ∧ c ≤ 'f' then c.toNat - 'a'.toNat + 10
  else if 'A' ≤ c ∧ c ≤ 'F' then c.toNat - 'A'.toNat + 10
  else 0

/-- Base-16 interpretation of a digit list (most significant first): the
value a hexadecimal literal is intended to denote. -/
def hexValAux (acc : Nat) : List Char → Nat
  | [] => acc
  | c :: t => hexValAux (acc * 16 + hexDigitVal c) t

/-- Base-16 interpretation of a string of hex digits. -/
def hexVal (s : String) : Nat := hexValAux 0 s.data

/-- Substring test on character lists: some suffix has `pat` as a prefix.
This is `QString::contains` for plain strings. -/
def containsSubL (s pat : List Char) : Bool :=
  match s with
  | [] => pat.isPrefixOf []
  | _ :: t => pat.isPrefixOf s || containsSubL t pat

/-- `QString::contains` on strings. -/
def containsSub (s pat : String) : Bool :=
  containsSubL s.data pat.data

/-- One pass of `QString::replace(before, after)`: scan left to right,
replace each occurrence of `pat`, and continue scanning after the
replacement (replaced text is not rescanned).  The first argument is
fuel, instantiated with the length of the subject so the scan is total. -/
def replaceAllAux (pat rep : List Char) : Nat → List Char → List Char
  | 0, s => s
  | _ + 1, [] => []
  | n + 1, c :: t =>
    if pat.isPrefixOf (c :: t) ∧ pat ≠ [] then
      rep ++ replaceAllAux pat rep n ((c :: t).drop pat.length)
    else
      c :: replaceAllAux pat rep n t

/-- `QString::replace(before, after)` on character lists. -/
def replaceAllL (s pat rep : List Char) : List Char :=
  replaceAllAux pat rep s.length s

/-- `QString::replace(before, after)` on strings: the textual substitution
of every literal occurrence of `pat` in `s` by `rep`. -/
def replaceAllS (s pat rep : String) : String :=
  ⟨replaceAllL s.data pat.data rep.data⟩

/-! ### Macro expansion (`QMLAnalyzer::processMacros`) -/

/-- `QMLAnalyzer::processMacros`: for each stored macro (the `QMap` is
iterated in key order, supplied here as the list order), if the text
contains `$NAME$` and the macro's value is non-empty, substitute the
value for every occurrence. -/
def processMacros (macros : List (String × String)) (sText : String) : String :=
  macros.foldl
    (fun sResult kv =>
      let sFullMacroName := "$" ++ kv.1 ++ "$"
      if containsSub sResult sFullMacroName then
        if kv.2.length > 0 then replaceAllS sResult sFullMacroName kv.2
        else sResult
      else sResult)
    sText

theorem replaceAllAux_of_not_contains (pat rep : List Char) :
    ∀ n s, containsSubL s pat = false → replaceAllAux pat rep n s = s := by
  intro n
  induction n with
  | zero => intro s _; rfl
  | succ n ih =>
    intro s h
    cases s with
    | nil => rfl
    | cons c t =>
      simp only [containsSubL, Bool.or_eq_false_iff] at h
      simp [replaceAllAux, h.1, ih t h.2]

theorem replaceAll_of_not_contains (s pat rep : String)
    (h : containsSub s pat = false) : replaceAllS s pat rep = s := by
  unfold replaceAllS replaceAllL
  rw [replaceAllAux_of_not_contains pat.data rep.data s.data.length s.data]
  · exact h

theorem string_length_pos_of_ne_empty (v : String) (h : v ≠ "") : v.length > 0 := by
  cases v with
  | mk data =>
    cases data with
    | nil => exact absurd rfl h
    | cons c t => simp [String.length]

/-! ### Lexer (`QMLTreeContext::parseNextToken` and helpers)

The stream is a zipper `(before, after)` over the character buffer:
`before` holds the consumed characters in reverse.  `getChar` at end of
stream returns EOF without moving; `ungetChar` is `seek(pos()-1)`, which
moves one character back regardless of the character handed to it (and
does nothing at position 0).  Loops that the C code cannot bound (the
`[` dimension scan and the comment skipper, both of which can spin at
EOF) take an explicit fuel argument; `none` means the routine has not
returned within that fuel. -/

/-- Token identifiers of the C token defines. -/
def TOKEN_IDENTIFIER : Int := 300
def TOKEN_LITERAL : Int := 301
def TOKEN_BOOLCONSTANT : Int := 302
def TOKEN_INTEGERCONSTANT : Int := 303
def TOKEN_REALCONSTANT : Int := 304
def TOKEN_ASSIGN : Int := 310
def TOKEN_ADD : Int := 311
def TOKEN_SUB : Int := 312
def TOKEN_MUL : Int := 313
def TOKEN_DIV : Int := 314
def TOKEN_MOD : Int := 315
def TOKEN_AND : Int := 316
def TOKEN_OR : Int := 317
def TOKEN_XOR : Int := 318
def TOKEN_SHL : Int := 319
def TOKEN_SHR : Int := 320
def TOKEN_ADD_ASSIGN : Int := 321
def TOKEN_SUB_ASSIGN : Int := 322
def TOKEN_MUL_ASSIGN : Int := 323
def TOKEN_DIV_ASSIGN : Int := 324
def TOKEN_MOD_ASSIGN : Int := 325
def TOKEN_AND_ASSIGN : Int := 326
def TOKEN_OR_ASSIGN : Int := 327
def TOKEN_XOR_ASSIGN : Int := 328
def TOKEN_SHL_ASSIGN : Int := 329
def TOKEN_SHR_ASSIGN : Int := 330
def TOKEN_LOWER : Int := 331
def TOKEN_GREATER : Int := 332
def TOKEN_LOWER_EQUALS : Int := 333
def TOKEN_GREATER_EQUALS : Int := 334
def TOKEN_EQUALS : Int := 335
def TOKEN_EQUALS_CHECK : Int := 336
def TOKEN_NOT_EQUALS : Int := 337
def TOKEN_NOT_EQUALS_CHECK : Int := 338
def TOKEN_LOGICAL_AND : Int := 339
def TOKEN_LOGICAL_OR : Int := 340
def TOKEN_NOT : Int := 341
def TOKEN_NOT_NOT : Int := 342
def TOKEN_INC : Int := 343
def TOKEN_DEC : Int := 344
def TOKEN_COMPLEMENT : Int := 345
def TOKEN_DIMENSION : Int := 346
def TOKEN_IMPORT : Int := 500
def TOKEN_PROPERTY : Int := 501
def TOKEN_DEFAULT : Int := 502
def TOKEN_READ_ONLY : Int := 503
def TOKEN_ALIAS : Int := 504
def TOKEN_VAR : Int := 505
def TOKEN_FUNCTION : Int := 512
def TOKEN_IF : Int := 513
def TOKEN_ELSE : Int := 514
def TOKEN_FOR : Int := 515
def TOKEN_IN : Int := 516
def TOKEN_WHILE : Int := 517
def TOKEN_SWITCH : Int := 518
def TOKEN_CASE : Int := 519
def TOKEN_BREAK : Int := 520
def TOKEN_CONTINUE : Int := 521
def TOKEN_WITH : Int := 522
def TOKEN_RETURN : Int := 523
def TOKEN_TYPEOF : Int := 524
def TOKEN_PRAGMA : Int := 525
def TOKEN_ON : Int := 526
def TOKEN_AS : Int := 527
def TOKEN_SIGNAL : Int := 528
def TOKEN_NEW : Int := 529

/-- The keyword table filled in the `QMLTreeContext` constructor. -/
def m_mTokens : List (String × Int) :=
  [("import", TOKEN_IMPORT), ("property", TOKEN_PROPERTY),
   ("default", TOKEN_DEFAULT), ("readonly", TOKEN_READ_ONLY),
   ("alias", TOKEN_ALIAS), ("function", TOKEN_FUNCTION),
   ("if", TOKEN_IF), ("else", TOKEN_ELSE), ("for", TOKEN_FOR),
   ("in", TOKEN_IN), ("while", TOKEN_WHILE), ("switch", TOKEN_SWITCH),
   ("case", TOKEN_CASE), ("break", TOKEN_BREAK),
   ("continue", TOKEN_CONTINUE), ("with", TOKEN_WITH),
   ("return", TOKEN_RETURN), ("typeof", TOKEN_TYPEOF),
   ("pragma", TOKEN_PRAGMA), ("on", TOKEN_ON), ("as", TOKEN_AS),
   ("signal", TOKEN_SIGNAL), ("var", TOKEN_VAR), ("new", TOKEN_NEW)]

/-- The parser value union (`UParserValue`) as far as the lexer sets it. -/
inductive LVal where
  | nil
  | str (s : String)
  | intv (i : Int)
  | realv (s : String)
  | boolv (b : Bool)
deriving DecidableEq

/-- Result of one `parseNextToken` call: the returned token id, the
accumulated token value (`m_pCurrentTokenValue`), the `LVAL` slot, and
the stream state after the call. -/
structure LexOut where
  tok : Int
  text : String
  val : LVal
  post : List Char × List Char
deriving DecidableEq

/-- `ungetChar` = `seek(pos()-1)`: step one character back in the zipper
(no-op at position 0, as a negative seek fails). -/
def ungetStep : List Char × List Char → List Char × List Char
  | ⟨[], a⟩ => ⟨[], a⟩
  | ⟨x :: b, a⟩ => ⟨b, x :: a⟩

/-- The single-line-comment skip: `while (c != '\n') { GET(c); if (c ==
EOF) return 0; }`.  `none` means EOF was reached (the lexer returns 0). -/
def skipLine : List Char → List Char → Option (List Char × List Char)
  | _, [] => none
  | b, c :: t => if c = '\n' then some (c :: b, t) else skipLine (c :: b) t

/-- Outcome of the whitespace-and-comment skip loop. -/
inductive SkipRes where
  | eofTok (st : List Char × List Char)
  | ready (st : List Char × List Char)
deriving DecidableEq

/-- The whitespace/comment skip loop at the head of `parseNextToken`.
`level` is `m_iCommentLevel`.  Inside a block comment (`level > 0`) only
`*` is inspected (a following `/` closes one level); an opening `/*` is
only recognised at `level == 0`.  The loop can spin at EOF (a `*` just
before end of stream is re-exposed by `UNGET(EOF)`), hence the fuel. -/
def lexSkip : Nat → Nat → List Char → List Char → Option SkipRes
  | 0, _, _, _ => none
  | n + 1, level, b, a =>
    match a with
    | [] => some (SkipRes.eofTok (b, []))
    | c :: t =>
      if level > 0 then
        if c = '*' then
          match t with
          | [] => lexSkip n level b [c]
          | d :: t2 =>
            if d = '/' then lexSkip n (level - 1) (d :: c :: b) t2
            else lexSkip n level (c :: b) (d :: t2)
        else lexSkip n level (c :: b) t
      else
        if c = '/' then
          match t with
          | [] => some (SkipRes.ready (ungetStep (b, [c])))
          | d :: t2 =>
            if d = '*' then lexSkip n (level + 1) (d :: c :: b) t2
            else if d = '/' then
              match skipLine (d :: c :: b) t2 with
              | none => some (SkipRes.eofTok (t2.reverse ++ d :: c :: b, []))
              | some st => lexSkip n level st.1 st.2
            else some (SkipRes.ready (b, a))
        else
          if ' ' < c then some (SkipRes.ready (b, a))
          else lexSkip n level (c :: b) t

/-- `parseEscape`: map the character after a backslash; unknown escapes
(and EOF) produce a space. -/
def escapeChar (c : Char) : Char :=
  if c = '"' then '"'
  else if c = '\\' then '\\'
  else if c = 'a' then Char.ofNat 7
  else if c = 'b' then Char.ofNat 8
  else if c = 'f' then Char.ofNat 12
  else if c = 'n' then '\n'
  else if c = 'r' then Char.ofNat 13
  else if c = 't' then '\t'
  else if c = 'v' then Char.ofNat 11
  else ' '

/-- The string-literal scan loop for quote character `q`: accumulate
characters until the closing quote; backslash runs `parseEscape`; EOF
inside the literal makes the lexer return 0. -/
def lexString (q : Char) (txt : List Char) : List Char → List Char → LexOut
  | b, [] => ⟨0, ⟨txt⟩, LVal.nil, (b, [])⟩
  | b, c :: t =>
    if c = q then ⟨TOKEN_LITERAL, ⟨txt⟩, LVal.str ⟨txt⟩, (c :: b, t)⟩
    else if c = '\\' then
      match t with
      | [] => lexString q (txt ++ [' ']) (c :: b) []
      | e :: t2 => lexString q (txt ++ [escapeChar e]) (e :: c :: b) t2
    else lexString q (txt ++ [c]) (c :: b) t

/-- The identifier scan loop: `do { STORE(c); GET(c); } while (c != EOF
&& (isalnum(c) || c == '_' | c == '$')); UNGET(c);`.  Note the unget at
EOF re-exposes the identifier's last character (`seek(pos()-1)`). -/
def lexIdentLoop (txt : List Char) : List Char → List Char → List Char × (List Char × List Char)
  | b, [] => (txt, ungetStep (b, []))
  | b, c :: t =>
    if cIsAlnum c || c = '_' || c = '$' then lexIdentLoop (txt ++ [c]) (c :: b) t
    else (txt, (b, c :: t))

/-- Keyword and boolean-constant resolution after the identifier loop. -/
def identToken (txt : List Char) (st : List Char × List Char) : LexOut :=
  let s : String := ⟨txt⟩
  if strLower s = "true" then ⟨TOKEN_BOOLCONSTANT, s, LVal.boolv true, st⟩
  else if strLower s = "false" then ⟨TOKEN_BOOLCONSTANT, s, LVal.boolv false, st⟩
  else
    match m_mTokens.lookup s with
    | some k => ⟨k, s, LVal.nil, st⟩
    | none => ⟨TOKEN_IDENTIFIER, s, LVal.str s, st⟩

/-- The tail of `parseNumber`: the float flag selects a real constant;
otherwise — in the hex branch exactly as in the decimal branch — the
value is produced by `QString::toInt()`, a base-10 parse. -/
def numFinish (pf ph : Bool) (txt : List Char) (st : List Char × List Char) : LexOut :=
  if pf then ⟨TOKEN_REALCONSTANT, ⟨txt⟩, LVal.realv ⟨txt⟩, st⟩
  else if ph then ⟨TOKEN_INTEGERCONSTANT, ⟨txt⟩, LVal.intv (qtToInt ⟨txt⟩), st⟩
  else ⟨TOKEN_INTEGERCONSTANT, ⟨txt⟩, LVal.intv (qtToInt ⟨txt⟩), st⟩

/-- `QMLTreeContext::parseNumber`: consume digits (hex letters only in
hex mode, one `.` promoting to float), then convert.  The `UNGET` in the
EOF exit path is `seek(pos()-1)` and re-exposes the last digit. -/
def parseNumber (pf ph : Bool) (txt : List Char) : List Char → List Char → LexOut
  | b, [] => numFinish pf ph txt (ungetStep (b, []))
  | b, c :: t =>
    if cIsDigit c then parseNumber pf ph (txt ++ [c]) (c :: b) t
    else if cIsHexLetter c then
      if ph then parseNumber pf ph (txt ++ [c]) (c :: b) t
      else numFinish pf ph txt (b, c :: t)
    else if c = '.' then
      if pf then numFinish pf ph txt (b, c :: t)
      else parseNumber true ph (txt ++ [c]) (c :: b) t
    else numFinish pf ph txt (b, c :: t)

/-- The `[` dimension scan: `while (1) { GET(d); if (d > ' ') { ... } }`.
EOF is below `' '`, and `getChar` at end of stream does not advance, so
the loop spins forever once the buffer is exhausted — hence the fuel. -/
def dimScan : Nat → List Char → List Char → Option LexOut
  | 0, _, _ => none
  | n + 1, b, a =>
    match a with
    | [] => dimScan n b []
    | d :: t =>
      if ' ' < d then
        if d = ']' then some ⟨TOKEN_DIMENSION, "[]", LVal.nil, (d :: b, t)⟩
        else some ⟨('['.toNat : Int), "[", LVal.nil, (b, d :: t)⟩
      else dimScan n (d :: b) t

/-- The token dispatch of `parseNextToken` once the first character `c`
of the token has been consumed (`b` already contains `c`). -/
def lexDispatch (fuel : Nat) (c : Char) (b a : List Char) : Option LexOut :=
  if c = '+' then some (
    match a with
    | '+' :: t => ⟨TOKEN_INC, "++", LVal.nil, ('+' :: b, t)⟩
    | '=' :: t => ⟨TOKEN_ADD_ASSIGN, "+=", LVal.nil, ('=' :: b, t)⟩
    | [] => ⟨TOKEN_ADD, "+", LVal.nil, ungetStep (b, [])⟩
    | _ => ⟨TOKEN_ADD, "+", LVal.nil, (b, a)⟩)
  else if c = '-' then some (
    match a with
    | '-' :: t => ⟨TOKEN_DEC, "--", LVal.nil, ('-' :: b, t)⟩
    | '=' :: t => ⟨TOKEN_SUB_ASSIGN, "-=", LVal.nil, ('=' :: b, t)⟩
    | [] => ⟨TOKEN_SUB, "-", LVal.nil, ungetStep (b, [])⟩
    | _ => ⟨TOKEN_SUB, "-", LVal.nil, (b, a)⟩)
  else if c = '*' then some (
    match a with
    | '=' :: t => ⟨TOKEN_MUL_ASSIGN, "*=", LVal.nil, ('=' :: b, t)⟩
    | [] => ⟨TOKEN_MUL, "*", LVal.nil, ungetStep (b, [])⟩
    | _ => ⟨TOKEN_MUL, "*", LVal.nil, (b, a)⟩)
  else if c = '/' then some (
    match a with
    | '=' :: t => ⟨TOKEN_DIV_ASSIGN, "/=", LVal.nil, ('=' :: b, t)⟩
    | [] => ⟨TOKEN_DIV, "/", LVal.nil, ungetStep (b, [])⟩
    | _ => ⟨TOKEN_DIV, "/", LVal.nil, (b, a)⟩)
  else if c = '%' then some (
    match a with
    | '=' :: t => ⟨TOKEN_MOD_ASSIGN, "%=", LVal.nil, ('=' :: b, t)⟩
    | [] => ⟨TOKEN_MOD, "%", LVal.nil, ungetStep (b, [])⟩
    | _ => ⟨TOKEN_MOD, "%", LVal.nil, (b, a)⟩)
  else if c = '&' then some (
    match a with
    | '&' :: t => ⟨TOKEN_LOGICAL_AND, "&&", LVal.nil, ('&' :: b, t)⟩
    | '=' :: t => ⟨TOKEN_AND_ASSIGN, "&=", LVal.nil, ('=' :: b, t)⟩
    | [] => ⟨TOKEN_AND, "&", LVal.nil, ungetStep (b, [])⟩
    | _ => ⟨TOKEN_AND, "&", LVal.nil, (b, a)⟩)
  else if c = '|' then some (
    match a with
    | '|' :: t => ⟨TOKEN_LOGICAL_OR, "||", LVal.nil, ('|' :: b, t)⟩
    | '=' :: t => ⟨TOKEN_OR_ASSIGN, "|=", LVal.nil, ('=' :: b, t)⟩
    | [] => ⟨TOKEN_OR, "|", LVal.nil, ungetStep (b, [])⟩
    | _ => ⟨TOKEN_OR, "|", LVal.nil, (b, a)⟩)
  else if c = '^' then some (
    match a with
    | '=' :: t => ⟨TOKEN_XOR_ASSIGN, "^=", LVal.nil, ('=' :: b, t)⟩
    | [] => ⟨TOKEN_XOR, "^", LVal.nil, ungetStep (b, [])⟩
    | _ => ⟨TOKEN_XOR, "^", LVal.nil, (b, a)⟩)
  else if c = '<' then some (
    match a with
    | '=' :: t => ⟨TOKEN_LOWER_EQUALS, "<=", LVal.nil, ('=' :: b, t)⟩
    | '<' :: '=' :: t => ⟨TOKEN_SHL_ASSIGN, "<<=", LVal.nil, ('=' :: '<' :: b, t)⟩
    | '<' :: [] => ⟨TOKEN_SHL, "<<", LVal.nil, ungetStep ('<' :: b, [])⟩
    | '<' :: e :: t => ⟨TOKEN_SHL, "<<", LVal.nil, ('<' :: b, e :: t)⟩
    | '>' :: t => ⟨TOKEN_NOT_EQUALS, "<>", LVal.nil, ('>' :: b, t)⟩
    | [] => ⟨TOKEN_LOWER, "<", LVal.nil, ungetStep (b, [])⟩
    | _ => ⟨TOKEN_LOWER, "<", LVal.nil, (b, a)⟩)
  else if c = '>' then some (
    match a with
    | '=' :: t => ⟨TOKEN_GREATER_EQUALS, ">=", LVal.nil, ('=' :: b, t)⟩
    | '>' :: '=' :: t => ⟨TOKEN_SHR_ASSIGN, ">>=", LVal.nil, ('=' :: '>' :: b, t)⟩
    | '>' :: [] => ⟨TOKEN_SHR, ">>", LVal.nil, ungetStep ('>' :: b, [])⟩
    | '>' :: e :: t => ⟨TOKEN_SHR, ">>", LVal.nil, ('>' :: b, e :: t)⟩
    | [] => ⟨TOKEN_GREATER, ">", LVal.nil, ungetStep (b, [])⟩
    | _ => ⟨TOKEN_GREATER, ">", LVal.nil, (b, a)⟩)
  else if c = '=' then some (
    match a with
    | '=' :: '=' :: t => ⟨TOKEN_EQUALS_CHECK, "===", LVal.nil, ('=' :: '=' :: b, t)⟩
    | '=' :: [] => ⟨TOKEN_EQUALS, "==", LVal.nil, ungetStep ('=' :: b, [])⟩
    | '=' :: e :: t => ⟨TOKEN_EQUALS, "==", LVal.nil, ('=' :: b, e :: t)⟩
    | [] => ⟨TOKEN_ASSIGN, "=", LVal.nil, ungetStep (b, [])⟩
    | _ => ⟨TOKEN_ASSIGN, "=", LVal.nil, (b, a)⟩)
  else if c = '!' then some (
    match a with
    | '!' :: t => ⟨TOKEN_NOT_NOT, "!!", LVal.nil, ('!' :: b, t)⟩
    | '=' :: '=' :: t => ⟨TOKEN_NOT_EQUALS_CHECK, "!==", LVal.nil, ('=' :: '=' :: b, t)⟩
    | '=' :: [] => ⟨TOKEN_NOT_EQUALS, "!=", LVal.nil, ungetStep ('=' :: b, [])⟩
    | '=' :: e :: t => ⟨TOKEN_NOT_EQUALS, "!=", LVal.nil, ('=' :: b, e :: t)⟩
    | [] => ⟨TOKEN_NOT, "!", LVal.nil, ungetStep (b, [])⟩
    | _ => ⟨TOKEN_NOT, "!", LVal.nil, (b, a)⟩)
  else if c = '~' then some ⟨TOKEN_COMPLEMENT, "~", LVal.nil, (b, a)⟩
  else if c = '[' then dimScan fuel b a
  else if c = '"' then some (lexString '"' [] b a)
  else if c = '\'' then some (lexString '\'' [] b a)
  else if c = '.' then some (
    match a with
    | d :: t =>
      if cIsDigit d then parseNumber true false ['0', '.', d] (d :: b) t
      else ⟨('.'.toNat : Int), ".", LVal.nil, (b, d :: t)⟩
    | [] => ⟨('.'.toNat : Int), ".", LVal.nil, ungetStep (b, [])⟩)
  else if cIsDigit c then some (
    if c = '0' then
      match a with
      | 'x' :: t => parseNumber false true ['0', 'x'] ('x' :: b) t
      | 'X' :: t => parseNumber false true ['0', 'X'] ('X' :: b) t
      | [] => parseNumber false false ['0'] (ungetStep (b, [])).1 (ungetStep (b, [])).2
      | _ => parseNumber false false [c] b a
    else parseNumber false false [c] b a)
  else if cIsAlpha c || c = '_' || c = '$' then
    some (identToken (lexIdentLoop [c] b a).1 (lexIdentLoop [c] b a).2)
  else some ⟨(c.toNat : Int), ⟨[c]⟩, LVal.nil, (b, a)⟩

/-- `QMLTreeContext::parseNextToken`: skip whitespace and comments, then
dispatch on the first character.  `none` means the call has not returned
within `fuel` loop iterations. -/
def parseNextToken (fuel : Nat) (b a : List Char) : Option LexOut :=
  match lexSkip fuel 0 b a with
  | none => none
  | some (SkipRes.eofTok st) => some ⟨0, "", LVal.nil, st⟩
  | some (SkipRes.ready st) =>
    match st.2 with
    | [] => some ⟨0, "", LVal.nil, (st.1, [])⟩
    | c :: t => lexDispatch fuel c (c :: st.1) t

/-! ### Lexer facts: comment nesting, hex literals, termination -/

/-- A character list free of the two-character close-comment sequence `*/`. -/
def noCloseComment : List Char → Bool
  | [] => true
  | [_] => true
  | c :: d :: t => if c = '*' ∧ d = '/' then false else noCloseComment (d :: t)

theorem dimScan_nil (b : List Char) : ∀ n, dimScan n b [] = none := by
  intro n
  induction n with
  | zero => rfl
  | succ n ih => simpa [dimScan] using ih

theorem lexSkip_fuel_shift (lvl lvl' : Nat) (b a b' a' : List Char)
    (h : ∀ n, lexSkip (n + 1) lvl b a = lexSkip n lvl' b' a') (r : SkipRes) :
    (∃ n, lexSkip n lvl b a = some r) ↔ (∃ n, lexSkip n lvl' b' a' = some r) := by
  constructor
  · rintro ⟨n, hn⟩
    match n with
    | 0 => simp [lexSkip] at hn
    | m + 1 => exact ⟨m, ((h m).symm.trans hn : _)⟩
  · rintro ⟨n, hn⟩
    exact ⟨n + 1, (h n).trans hn⟩

theorem lexSkip_level1_noClose :
    ∀ body : List Char, noCloseComment body = true →
      ∀ b rest (r : SkipRes),
        ((∃ n, lexSkip n 1 b (body ++ '*' :: '/' :: rest) = some r) ↔
         (∃ n, lexSkip n 0 (List.reverse (body ++ ['*', '/']) ++ b) rest = some r)) := by
  intro body
  induction body with
  | nil =>
    intro _ b rest r
    apply lexSkip_fuel_shift
    intro n
    simp [lexSkip]
  | cons c t ih =>
    intro hnc b rest r
    by_cases hc : c = '*'
    · subst hc
      cases t with
      | nil =>
        have step : ∀ n, lexSkip (n + 1) 1 b (['*'] ++ '*' :: '/' :: rest) =
            lexSkip n 1 ('*' :: b) ([] ++ '*' :: '/' :: rest) := by
          intro n
          simp [lexSkip]
        refine (lexSkip_fuel_shift _ _ _ _ _ _ step r).trans ?_
        refine (ih rfl ('*' :: b) rest r).trans ?_
        rw [show List.reverse (['*'] ++ ['*', '/']) ++ b =
            List.reverse (([] : List Char) ++ ['*', '/']) ++ ('*' :: b) from by simp]
      | cons d t2 =>
        by_cases hd : d = '/'
        · subst hd
          simp [noCloseComment] at hnc
        · have hnc2 : noCloseComment (d :: t2) = true := by
            simpa [noCloseComment, hd] using hnc
          have step : ∀ n, lexSkip (n + 1) 1 b (('*' :: d :: t2) ++ '*' :: '/' :: rest) =
              lexSkip n 1 ('*' :: b) ((d :: t2) ++ '*' :: '/' :: rest) := by
            intro n
            simp [lexSkip, hd]
          refine (lexSkip_fuel_shift _ _ _ _ _ _ step r).trans ?_
          refine (ih hnc2 ('*' :: b) rest r).trans ?_
          rw [show List.reverse (('*' :: d :: t2) ++ ['*', '/']) ++ b =
              List.reverse ((d :: t2) ++ ['*', '/']) ++ ('*' :: b) from by simp]
    · have hnc2 : noCloseComment t = true := by
        cases t with
        | nil => rfl
        | cons d t2 => simpa [noCloseComment, hc] using hnc
      have step : ∀ n, lexSkip (n + 1) 1 b ((c :: t) ++ '*' :: '/' :: rest) =
          lexSkip n 1 (c :: b) (t ++ '*' :: '/' :: rest) := by
        intro n
        simp [lexSkip, hc]
      refine (lexSkip_fuel_shift _ _ _ _ _ _ step r).trans ?_
      refine (ih hnc2 (c :: b) rest r).trans ?_
      rw [show List.reverse ((c :: t) ++ ['*', '/']) ++ b =
          List.reverse (t ++ ['*', '/']) ++ (c :: b) from by simp]

/-- Claim C4, counterexample.  On the depth-2 nested input
`/* /* */ x */ y` the lexer's next token is the identifier `x`, which
lies inside the outermost comment; the first token after the outermost
closing `*/` would be the identifier `y`.  So nested block comments are
not consumed completely, refuting the claim as stated. -/
theorem C4_counterexample :
    (parseNextToken 100 [] ("/* /* */ x */ y".toList)).map (fun o => (o.tok, o.text)) =
      some (TOKEN_IDENTIFIER, "x") ∧
    (parseNextToken 100 [] (" y".toList)).map (fun o => (o.tok, o.text)) =
      some (TOKEN_IDENTIFIER, "y") ∧
    ("x" : String) ≠ "y" := by
  refine ⟨by decide, by decide, by decide⟩

/-- Claim C4, amended.  Block comments do not nest: an opening `/*`
inside a comment is never recognised (that branch of the skip loop is
only reachable at comment level 0), so the first `*/` terminates the
comment.  Precisely: for any comment body free of `*/` — even one
containing `/*` — skipping `/*` ++ body ++ `*/` ++ rest behaves exactly
like skipping `rest` with the comment consumed. -/
theorem C4_amended_theorem (body rest b : List Char) (r : SkipRes)
    (h : noCloseComment body = true) :
    ((∃ n, lexSkip n 0 b ('/' :: '*' :: (body ++ '*' :: '/' :: rest)) = some r) ↔
     (∃ n, lexSkip n 0 (List.reverse ('/' :: '*' :: (body ++ ['*', '/'])) ++ b) rest = some r)) := by
  have step : ∀ n, lexSkip (n + 1) 0 b ('/' :: '*' :: (body ++ '*' :: '/' :: rest)) =
      lexSkip n 1 ('*' :: '/' :: b) (body ++ '*' :: '/' :: rest) := by
    intro n
    simp [lexSkip]
  refine (lexSkip_fuel_shift _ _ _ _ _ _ step r).trans ?_
  refine (lexSkip_level1_noClose body h ('*' :: '/' :: b) rest r).trans ?_
  rw [show List.reverse ('/' :: '*' :: (body ++ ['*', '/'])) ++ b =
      List.reverse (body ++ ['*', '/']) ++ ('*' :: '/' :: b) from by simp]

/-- Claim C4, witness for the amended theorem: the comment body `/*a`
(which itself contains an opening `/*` but no `*/`) is skipped whole. -/
theorem C4_amended_witness :
    noCloseComment ['/', '*', 'a'] = true ∧
    ((∃ n, lexSkip n 0 []
        ('/' :: '*' :: (['/', '*', 'a'] ++ '*' :: '/' :: [' ', 'y'])) =
        some (SkipRes.ready ([' ', '/', '*', 'a', '*', '/', '*', '/'], ['y']))) ↔
     (∃ n, lexSkip n 0
        (List.reverse ('/' :: '*' :: (['/', '*', 'a'] ++ ['*', '/'])) ++ []) [' ', 'y'] =
        some (SkipRes.ready ([' ', '/', '*', 'a', '*', '/', '*', '/'], ['y'])))) :=
  ⟨by decide, C4_amended_theorem ['/', '*', 'a'] [' ', 'y'] []
      (SkipRes.ready ([' ', '/', '*', 'a', '*', '/', '*', '/'], ['y'])) (by decide)⟩

/-- Claim C5.  A hex literal token such as `0x1A` is returned as an
integer constant whose value comes from `QString::toInt()` — a base-10
parse that fails on the `0x` prefix and yields 0, not the base-16 value
26 the claim (and the documented intent) prescribes. -/
theorem C5_code_eval :
    (parseNextToken 100 [] ("0x1A".toList)).map (fun o => (o.tok, o.text, o.val)) =
      some (TOKEN_INTEGERCONSTANT, "0x1A", LVal.intv 0) ∧
    hexVal "1A" = 26 ∧
    ((0 : Int) ≠ 26) := by
  refine ⟨by decide, by decide, by decide⟩

/-- Claim C10.  The next-token routine does not terminate on every
finite buffer: on the one-character buffer `[` the dimension-scan loop
`while (1) { GET(d); if (d > ' ') ... }` never tests for EOF, `getChar`
keeps returning EOF without advancing, and the call never returns —
for every fuel bound the embedded routine fails to produce a result. -/
theorem C10_nontermination : ∀ fuel : Nat, parseNextToken fuel [] ['['] = none := by
  intro fuel
  match fuel with
  | 0 => rfl
  | n + 1 =>
    show dimScan (n + 1) ['['] [] = none
    exact dimScan_nil ['['] (n + 1)

/-! ### AST entity model and rule grammar

`QMLEntity` abstracts an AST node as the rule engine observes it:
`className` is `metaObject()->className()`, `str` is `toString()`,
`valueType` is `QMLType::typeToString(value().type())`, `members` is the
`members()` map (a `none` value is a null member pointer), `isComplex`
and `contents` model the `QMLComplexEntity` downcast, `pos` is
`position()`, and `eid` is an identity used only by the event trace.
The `toString`/`value` renderings live in AST classes outside the
analyzed sources, so they are carried as data. -/

inductive QMLEntity where
  | mk (eid : Nat) (className : String) (str : String) (valueType : String)
      (members : List (String × Option QMLEntity))
      (isComplex : Bool)
      (contents : List QMLEntity)
      (pos : Nat × Nat)

def QMLEntity.eid : QMLEntity → Nat
  | QMLEntity.mk i _ _ _ _ _ _ _ => i

def QMLEntity.className : QMLEntity → String
  | QMLEntity.mk _ c _ _ _ _ _ _ => c

def QMLEntity.str : QMLEntity → String
  | QMLEntity.mk _ _ s _ _ _ _ _ => s

def QMLEntity.valueType : QMLEntity → String
  | QMLEntity.mk _ _ _ v _ _ _ _ => v

def QMLEntity.members : QMLEntity → List (String × Option QMLEntity)
  | QMLEntity.mk _ _ _ _ ms _ _ _ => ms

def QMLEntity.isComplex : QMLEntity → Bool
  | QMLEntity.mk _ _ _ _ _ b _ _ => b

def QMLEntity.contents : QMLEntity → List QMLEntity
  | QMLEntity.mk _ _ _ _ _ _ cs _ => cs

def QMLEntity.pos : QMLEntity → Nat × Nat
  | QMLEntity.mk _ _ _ _ _ _ _ p => p

/-- `mMembers.contains(sMember) && mMembers[sMember] != nullptr`: the
member value when the key is present and the pointer non-null. -/
def memberLookup (ms : List (String × Option QMLEntity)) (k : String) : Option QMLEntity :=
  match ms with
  | [] => none
  | (k2, v) :: t =>
    if k2 = k then
      match v with
      | some e => some e
      | none => none
    else memberLookup t k

/-- `QMLBinaryOperation` as far as `members()` is concerned. -/
structure QMLBinaryOperation where
  left : Option QMLEntity
  right : Option QMLEntity

/-- `QMLBinaryOperation::members`: the map holding `"Left"` and
`"Right"` (capitalised, exactly as in the source). -/
def QMLBinaryOperation.members (b : QMLBinaryOperation) : List (String × Option QMLEntity) :=
  [("Left", b.left), ("Right", b.right)]

/-- An analyzer diagnostic (`QMLAnalyzerError`). -/
structure QMLAnalyzerError where
  fileName : String
  pos : Nat × Nat
  text : String
deriving DecidableEq

/-- A `<Condition>` element's attributes; an absent XML attribute reads
as the empty string (`QMap::operator[]` default). -/
structure Condition where
  member : String := ""
  value : String := ""
  empty : String := ""
  negate : String := ""
  operation : String := ""
deriving DecidableEq

/-- An `<Accept>`/`<Reject>` element: its attributes (absent = empty
string; `classStr` is the XML attribute `Class`, `typeStr` is `Type`)
and its `<Condition>` children in document order. -/
structure Rule where
  member : String := ""
  value : String := ""
  typeStr : String := ""
  text : String := ""
  nestedCount : String := ""
  count : String := ""
  regexp : String := ""
  path : String := ""
  list : String := ""
  classStr : String := ""
  conditions : List Condition := []
deriving DecidableEq

/-- A `<Check Class=...>` block with its rules in document order. -/
structure Check where
  classStr : String
  rejects : List Rule := []
  accepts : List Rule := []
deriving DecidableEq

/-- The parsed rule document: macros (in `QMap` key order) and the
`<Check>` blocks in document order. -/
structure Grammar where
  macros : List (String × String) := []
  checks : List Check := []
deriving DecidableEq

/-- External oracles of the rule engine: `QRegExp::exactMatch` and the
filesystem probe of the `Path="Exists"` branch (file-or-directory
existence of the member string resolved against the file's folder). -/
structure AnalyzerOracles where
  regexExactMatch : String → String → Bool
  pathExists : String → String → Bool

/-- `QString::split(",")`, keeping empty parts. -/
def splitCommaL : List Char → List Char → List String
  | cur, [] => [⟨cur.reverse⟩]
  | cur, c :: t => if c = ',' then (⟨cur.reverse⟩ : String) :: splitCommaL [] t else splitCommaL (c :: cur) t

/-- `QString::split(",")` on a string. -/
def splitComma (s : String) : List String := splitCommaL [] s.data

/-- The body of the condition loop in
`QMLAnalyzer::runGrammar_SatisfiesConditions`: whether one
`<Condition>` lets the rule proceed (the C loop returns `false` from
the whole function as soon as one condition fails). -/
def conditionPasses (sFileName : String) (e : QMLEntity) (c : Condition) : Bool :=
  let sOperation := c.operation
  let sValue := c.value
  let sMember := strLower c.member
  let sEmpty := strLower c.empty
  let sNegate := strLower c.negate
  match memberLookup e.members sMember with
  | some m =>
    let sMemberToString := stripQuotes m.str
    if sValue ≠ "" then
      if sMemberToString = sValue then
        if sNegate = "true" then false else true
      else
        if sNegate ≠ "true" then false else true
    else if sEmpty ≠ "" then
      if sMemberToString = "" ∧ sEmpty = "true" then true else false
    else true
  | none =>
    if sMember = "filename" then
      if sOperation = "Contains" then
        if containsSub sFileName sValue then
          if sNegate = "true" then false else true
        else
          if sNegate ≠ "true" then false else true
      else
        if sFileName = sValue then
          if sNegate = "true" then false else true
        else
          if sNegate ≠ "true" then false else true
    else if sEmpty ≠ "" then
      if sEmpty ≠ "true" then false else true
    else true

/-- `QMLAnalyzer::runGrammar_SatisfiesConditions`: every `<Condition>`
of the rule passes. -/
def runGrammar_SatisfiesConditions (sFileName : String) (e : QMLEntity) (rule : Rule) : Bool :=
  rule.conditions.all (conditionPasses sFileName e)

/-- The rule attributes after the macro expansion performed at the top
of `runGrammar_Reject` (the `Member` attribute is lower-cased before
expansion). -/
structure RuleX where
  sMember : String
  sValue : String
  sType : String
  sText : String
  sNestedCount : String
  sCount : String
  sRegExp : String
  sPath : String
  sList : String
  sClass : String
deriving DecidableEq

/-- The ten `processMacros` calls at the top of `runGrammar_Reject`. -/
def expandRule (macros : List (String × String)) (r : Rule) : RuleX :=
  ⟨processMacros macros (strLower r.member),
   processMacros macros r.value,
   processMacros macros r.typeStr,
   processMacros macros r.text,
   processMacros macros r.nestedCount,
   processMacros macros r.count,
   processMacros macros r.regexp,
   processMacros macros r.path,
   processMacros macros r.list,
   processMacros macros r.classStr⟩

theorem QMLEntity.sizeOf_members_lt (e : QMLEntity) : sizeOf e.members < sizeOf e := by
  cases e with
  | mk i c s v ms b cs p =>
    simp [QMLEntity.members]
    omega

theorem QMLEntity.sizeOf_contents_lt (e : QMLEntity) : sizeOf e.contents < sizeOf e := by
  cases e with
  | mk i c s v ms b cs p =>
    simp [QMLEntity.contents]
    omega

mutual

/-- `QMLAnalyzer::runGrammar_CountNested`: the maximum, over all member
and (for complex entities) content subtrees, of the nested count, plus
one when the node's own class matches. -/
def runGrammar_CountNested (sClassName : String) (e : QMLEntity) : Int :=
  let c1 := countNestedMembers sClassName e.members
  let c2 := if e.isComplex then max c1 (countNestedContents sClassName e.contents) else c1
  if e.className = sClassName then c2 + 1 else c2
termination_by sizeOf e
decreasing_by
  · exact QMLEntity.sizeOf_members_lt e
  · exact QMLEntity.sizeOf_contents_lt e

/-- The member loop of `runGrammar_CountNested` (a null member counts 0). -/
def countNestedMembers (sClassName : String) (ms : List (String × Option QMLEntity)) : Int :=
  match ms with
  | [] => 0
  | (_, none) :: t => max 0 (countNestedMembers sClassName t)
  | (_, some m) :: t => max (runGrammar_CountNested sClassName m) (countNestedMembers sClassName t)
termination_by sizeOf ms
decreasing_by
  all_goals simp_wf
  all_goals omega

/-- The contents loop of `runGrammar_CountNested`. -/
def countNestedContents (sClassName : String) (cs : List QMLEntity) : Int :=
  match cs with
  | [] => 0
  | m :: t => max (runGrammar_CountNested sClassName m) (countNestedContents sClassName t)
termination_by sizeOf cs
decreasing_by
  all_goals simp_wf
  all_goals omega

end

/-- The body of `QMLAnalyzer::runGrammar_Reject` after the conditions
check, over the macro-expanded attributes `rx`: the `NestedCount`
check, else the member-check chain. -/
def runGrammar_RejectChecks (O : AnalyzerOracles)
    (sFileName sClassName : String) (e : QMLEntity) (rx : RuleX)
    (bInverseLogic : Bool) : Bool × List QMLAnalyzerError :=
  if rx.sNestedCount ≠ "" then
      let iNestedCountAllowed := qtToInt rx.sNestedCount
      if Bool.xor (decide (iNestedCountAllowed > 0)) bInverseLogic then
        let iNestedCount := runGrammar_CountNested sClassName e
        if iNestedCount > iNestedCountAllowed then
          (true, [⟨sFileName, e.pos, rx.sText⟩])
        else (false, [])
      else (false, [])
    else
      match memberLookup e.members rx.sMember with
      | some m =>
        let sMemberToString := stripQuotes m.str
        let sMemberClass := m.className
        if rx.sList ≠ "" then
          let lNames := splitComma rx.sList
          if Bool.xor (lNames.contains sMemberToString) bInverseLogic then
            (true, [⟨sFileName, e.pos, rx.sText⟩])
          else (false, [])
        else if rx.sClass ≠ "" then
          if Bool.xor (decide (sMemberClass = rx.sClass)) bInverseLogic then
            (true, [⟨sFileName, e.pos, rx.sText⟩])
          else (false, [])
        else if rx.sPath ≠ "" then
          if rx.sPath = "Exists" then
            if Bool.xor (O.pathExists sFileName sMemberToString) bInverseLogic then
              (true, [⟨sFileName, e.pos, rx.sText⟩])
            else (false, [])
          else (false, [])
        else if rx.sRegExp ≠ "" ∧ sMemberToString ≠ "" then
          if Bool.xor (O.regexExactMatch rx.sRegExp sMemberToString) bInverseLogic then
            (true, [⟨sFileName, e.pos, rx.sText⟩])
          else (false, [])
        else if rx.sCount ≠ "" then
          let iCountToCheck := qtToInt rx.sCount
          if m.isComplex then
            if Bool.xor (decide ((m.contents.length : Int) > iCountToCheck)) bInverseLogic then
              (true, [⟨sFileName, e.pos, rx.sText⟩])
            else (false, [])
          else (false, [])
        else if rx.sType ≠ "" then
          if Bool.xor (decide (m.valueType = rx.sType)) bInverseLogic then
            (true, [⟨sFileName, e.pos, rx.sText⟩])
          else (false, [])
        else
          if Bool.xor (decide (sMemberToString = rx.sValue)) bInverseLogic then
            (true, [⟨sFileName, e.pos, rx.sText⟩])
          else (false, [])
      | none => (false, [])

/-- `QMLAnalyzer::runGrammar_Reject`: evaluate one `<Accept>`/`<Reject>`
rule (`bInverseLogic` is true for `<Accept>`) on one entity: expand the
macros in the attributes, evaluate the `<Condition>`s, then run the
checks.  Returns the C function's boolean together with the diagnostics
appended by `outputError` (one per firing return path, at the entity's
position). -/
def runGrammar_Reject (O : AnalyzerOracles) (macros : List (String × String))
    (sFileName sClassName : String) (e : QMLEntity) (rule : Rule)
    (bInverseLogic : Bool) : Bool × List QMLAnalyzerError :=
  if runGrammar_SatisfiesConditions sFileName e rule then
    runGrammar_RejectChecks O sFileName sClassName e (expandRule macros rule) bInverseLogic
  else (false, [])

/-- Events of the rule-engine trace: node entry and single-rule
evaluations.  `checkIdx`/`ruleIdx` locate the rule in the grammar,
`isAccept` distinguishes `<Accept>` from `<Reject>`, `fired` is
`runGrammar_Reject`'s return value. -/
inductive REv where
  | enter (eid : Nat)
  | ruleEval (eid : Nat) (checkIdx ruleIdx : Nat) (isAccept : Bool) (fired : Bool)
deriving DecidableEq

/-- The `foreach` over one check's `<Reject>` (or `<Accept>`) vector in
`runGrammar_Recurse`: every rule is evaluated, the fired flags are
or-ed, diagnostics accumulate in evaluation order. -/
def evalRuleList (O : AnalyzerOracles) (macros : List (String × String))
    (sFileName sClassName : String) (e : QMLEntity) (bInverseLogic : Bool)
    (cIdx : Nat) : Nat → List Rule → List REv × List QMLAnalyzerError × Bool
  | _, [] => ([], [], false)
  | rIdx, r :: rs =>
    let res := runGrammar_Reject O macros sFileName sClassName e r bInverseLogic
    match evalRuleList O macros sFileName sClassName e bInverseLogic cIdx (rIdx + 1) rs with
    | (evs, ds, f) =>
      (REv.ruleEval e.eid cIdx rIdx bInverseLogic res.1 :: evs, res.2 ++ ds, res.1 || f)

/-- The `foreach` over `getNodesByTagName("Check")` in
`runGrammar_Recurse`: for each check whose `Class` equals the node's
class name, all rejects are evaluated, then all accepts. -/
def evalChecks (O : AnalyzerOracles) (macros : List (String × String))
    (sFileName : String) (e : QMLEntity) :
    Nat → List Check → List REv × List QMLAnalyzerError × Bool
  | _, [] => ([], [], false)
  | cIdx, ck :: cks =>
    if ck.classStr = e.className then
      match evalRuleList O macros sFileName ck.classStr e false cIdx 0 ck.rejects with
      | (evR, dR, fR) =>
        match evalRuleList O macros sFileName ck.classStr e true cIdx 0 ck.accepts with
        | (evA, dA, fA) =>
          match evalChecks O macros sFileName e (cIdx + 1) cks with
          | (evs, ds, f) => (evR ++ evA ++ evs, dR ++ dA ++ ds, fR || fA || f)
    else evalChecks O macros sFileName e (cIdx + 1) cks

mutual

/-- `QMLAnalyzer::runGrammar_Recurse`: evaluate all matching checks'
rules on the node; recurse into the members and — for complex
entities — the ordered contents if and only if no rule fired.  Returns
the event trace and the diagnostics in emission order. -/
def runGrammar_Recurse (O : AnalyzerOracles) (macros : List (String × String))
    (sFileName : String) (g : Grammar) (e : QMLEntity) :
    List REv × List QMLAnalyzerError :=
  match evalChecks O macros sFileName e 0 g.checks with
  | (evs, ds, bHasRejects) =>
    if bHasRejects then (REv.enter e.eid :: evs, ds)
    else
      match recurseMembers O macros sFileName g e.members with
      | (evM, dM) =>
        match (if e.isComplex then recurseContents O macros sFileName g e.contents else (([], []) : List REv × List QMLAnalyzerError)) with
        | (evC, dC) => (REv.enter e.eid :: evs ++ evM ++ evC, ds ++ dM ++ dC)
termination_by sizeOf e
decreasing_by
  · exact QMLEntity.sizeOf_members_lt e
  · exact QMLEntity.sizeOf_contents_lt e

/-- The member loop of `runGrammar_Recurse` (a null member is the
`pEntity == nullptr` early return). -/
def recurseMembers (O : AnalyzerOracles) (macros : List (String × String))
    (sFileName : String) (g : Grammar) (ms : List (String × Option QMLEntity)) :
    List REv × List QMLAnalyzerError :=
  match ms with
  | [] => ([], [])
  | (_, none) :: t => recurseMembers O macros sFileName g t
  | (_, some m) :: t =>
    match runGrammar_Recurse O macros sFileName g m with
    | (ev1, d1) =>
      match recurseMembers O macros sFileName g t with
      | (ev2, d2) => (ev1 ++ ev2, d1 ++ d2)
termination_by sizeOf ms
decreasing_by
  all_goals simp_wf
  all_goals omega

/-- The contents loop of `runGrammar_Recurse`. -/
def recurseContents (O : AnalyzerOracles) (macros : List (String × String))
    (sFileName : String) (g : Grammar) (cs : List QMLEntity) :
    List REv × List QMLAnalyzerError :=
  match cs with
  | [] => ([], [])
  | m :: t =>
    match runGrammar_Recurse O macros sFileName g m with
    | (ev1, d1) =>
      match recurseContents O macros sFileName g t with
      | (ev2, d2) => (ev1 ++ ev2, d1 ++ d2)
termination_by sizeOf cs
decreasing_by
  all_goals simp_wf
  all_goals omega

end

/-! ### Spec-side reformulations

Definitions in this section restate parts of the specification's wording
(table-order attribute selection, the claimed condition semantics, the
claimed reject-before-accept trace order) to be compared against the
embedded code, plus the per-branch predicate of the rule evaluator. -/

/-- The predicate the member-check chain of `runGrammar_Reject`
evaluates, as a partial value: `none` when no branch guard holds (the
member is absent or null, `Path` is set to something other than
`Exists`, or `Count` is set on a non-complex member). -/
def rulePredicate (O : AnalyzerOracles) (sFileName : String) (e : QMLEntity)
    (rx : RuleX) : Option Bool :=
  match memberLookup e.members rx.sMember with
  | none => none
  | some m =>
    let mStr := stripQuotes m.str
    if rx.sList ≠ "" then some ((splitComma rx.sList).contains mStr)
    else if rx.sClass ≠ "" then some (decide (m.className = rx.sClass))
    else if rx.sPath ≠ "" then
      if rx.sPath = "Exists" then some (O.pathExists sFileName mStr) else none
    else if rx.sRegExp ≠ "" ∧ mStr ≠ "" then some (O.regexExactMatch rx.sRegExp mStr)
    else if rx.sCount ≠ "" then
      if m.isComplex then some (decide ((m.contents.length : Int) > qtToInt rx.sCount)) else none
    else if rx.sType ≠ "" then some (decide (m.valueType = rx.sType))
    else some (decide (mStr = rx.sValue))

/-- The `NestedCount` predicate as the claim states it: the maximal
same-class nesting depth of the subtree exceeds the allowed count. -/
def nestedPredicate (sClassName : String) (e : QMLEntity) (allowed : Int) : Bool :=
  runGrammar_CountNested sClassName e > allowed

/-- The seven rule attributes whose checks compete in the evaluator. -/
inductive RuleAttr where
  | listA
  | classA
  | pathA
  | regexpA
  | countA
  | typeA
  | valueA
deriving DecidableEq

/-- Whether an attribute is set (non-empty after macro expansion). -/
def attrIsSet (rx : RuleX) : RuleAttr → Bool
  | RuleAttr.listA => rx.sList ≠ ""
  | RuleAttr.classA => rx.sClass ≠ ""
  | RuleAttr.pathA => rx.sPath ≠ ""
  | RuleAttr.regexpA => rx.sRegExp ≠ ""
  | RuleAttr.countA => rx.sCount ≠ ""
  | RuleAttr.typeA => rx.sType ≠ ""
  | RuleAttr.valueA => rx.sValue ≠ ""

/-- Whether an attribute's branch can be entered for a member whose
canonical string is `mStr`: as `attrIsSet`, except that the `RegExp`
branch additionally requires a non-empty member string. -/
def attrApplicable (rx : RuleX) (mStr : String) : RuleAttr → Bool
  | RuleAttr.regexpA => rx.sRegExp ≠ "" ∧ mStr ≠ ""
  | a => attrIsSet rx a

/-- The single attribute's predicate, in isolation (with its guard). -/
def evalAttr (O : AnalyzerOracles) (sFileName : String) (rx : RuleX)
    (m : QMLEntity) : RuleAttr → Option Bool
  | RuleAttr.listA => some ((splitComma rx.sList).contains (stripQuotes m.str))
  | RuleAttr.classA => some (decide (m.className = rx.sClass))
  | RuleAttr.pathA =>
    if rx.sPath = "Exists" then some (O.pathExists sFileName (stripQuotes m.str)) else none
  | RuleAttr.regexpA => some (O.regexExactMatch rx.sRegExp (stripQuotes m.str))
  | RuleAttr.countA =>
    if m.isComplex then some (decide ((m.contents.length : Int) > qtToInt rx.sCount)) else none
  | RuleAttr.typeA => some (decide (m.valueType = rx.sType))
  | RuleAttr.valueA => some (decide (stripQuotes m.str = rx.sValue))

/-- The attribute order of the code's else-if chain. -/
def codeAttrOrder : List RuleAttr :=
  [RuleAttr.listA, RuleAttr.classA, RuleAttr.pathA, RuleAttr.regexpA,
   RuleAttr.countA, RuleAttr.typeA]

/-- The attribute order of the spec's attribute table (claim C3):
Value, RegExp, Class, List, Count, Type, Path. -/
def tableAttrOrder : List RuleAttr :=
  [RuleAttr.valueA, RuleAttr.regexpA, RuleAttr.classA, RuleAttr.listA,
   RuleAttr.countA, RuleAttr.typeA, RuleAttr.pathA]

/-- First applicable attribute in the code's chain order (default:
the value check). -/
def selectedAttr (rx : RuleX) (mStr : String) : RuleAttr :=
  (codeAttrOrder.find? (attrApplicable rx mStr)).getD RuleAttr.valueA

/-- First set attribute in the spec table's order (default: the value
check) — the selection claim C3 asserts. -/
def tableSelectedAttr (rx : RuleX) : RuleAttr :=
  (tableAttrOrder.find? (attrIsSet rx)).getD RuleAttr.valueA

/-- Rule-evaluation events of one check, as the amended claim C2
describes them: the rules in document order, each contributing exactly
one event carrying its `runGrammar_Reject` outcome. -/
def specRuleEvents (O : AnalyzerOracles) (macros : List (String × String))
    (sFileName : String) (e : QMLEntity) (cIdx : Nat) (isAccept : Bool)
    (cls : String) (rules : List Rule) : List REv :=
  (rules.enum).map (fun ir =>
    REv.ruleEval e.eid cIdx ir.1 isAccept
      (runGrammar_Reject O macros sFileName cls e ir.2 isAccept).1)

/-- The whole per-node evaluation order as the amended claim C2
describes it: matching checks in document order, each yielding its
rejects' events then its accepts' events. -/
def specNodeEvents (O : AnalyzerOracles) (macros : List (String × String))
    (sFileName : String) (g : Grammar) (e : QMLEntity) : List REv :=
  (g.checks.enum).flatMap (fun ic =>
    if ic.2.classStr = e.className then
      specRuleEvents O macros sFileName e ic.1 false ic.2.classStr ic.2.rejects ++
      specRuleEvents O macros sFileName e ic.1 true ic.2.classStr ic.2.accepts
    else [])

/-- The global ordering claim C2 states: once an `<Accept>` evaluation
appears in the trace, no `<Reject>` evaluation may follow. -/
def arbaAux (seenAccept : Bool) : List REv → Bool
  | [] => true
  | REv.ruleEval _ _ _ isAcc _ :: t =>
    if isAcc then arbaAux true t
    else if seenAccept then false else arbaAux seenAccept t
  | _ :: t => arbaAux seenAccept t

/-- All reject evaluations precede all accept evaluations in a trace. -/
def allRejectsBeforeAccepts (l : List REv) : Bool :=
  arbaAux false l

/-- The condition semantics claim C6 states, on a present non-null
member: `Value` set compares canonical strings, otherwise
`Empty="true"` tests emptiness, and `Negate="true"` inverts either
result. -/
def claimedConditionPass (e : QMLEntity) (c : Condition) : Option Bool :=
  match memberLookup e.members (strLower c.member) with
  | none => none
  | some m =>
    let mStr := stripQuotes m.str
    if c.value ≠ "" then
      some (Bool.xor (decide (mStr = c.value)) (decide (strLower c.negate = "true")))
    else if strLower c.empty = "true" then
      some (Bool.xor (decide (mStr = "")) (decide (strLower c.negate = "true")))
    else none

/-- A string equal to its own lower-casing, i.e. entirely lowercase. -/
def strIsLower (s : String) : Bool := s = strLower s

/-- Oracles answering `false` everywhere (no regex match, no path
exists); used for concrete instances that avoid those branches. -/
def oracleNone : AnalyzerOracles := ⟨fun _ _ => false, fun _ _ => false⟩

/-! ### Claim C1: Accept as inverted Reject -/

theorem fire_shape (b : Bool) (d : QMLAnalyzerError) :
    ((if b then (true, [d]) else (false, [])) : Bool × List QMLAnalyzerError).1 = b ∧
    (((if b then (true, [d]) else (false, [])) : Bool × List QMLAnalyzerError).2 ≠ [] ↔ b = true) := by
  cases b <;> simp

theorem rejectChecks_member (O : AnalyzerOracles) (sFileName sClassName : String)
    (e : QMLEntity) (rx : RuleX) (bInverseLogic : Bool)
    (hn : rx.sNestedCount = "") (p : Bool)
    (hp : rulePredicate O sFileName e rx = some p) :
    (runGrammar_RejectChecks O sFileName sClassName e rx bInverseLogic).1 = Bool.xor p bInverseLogic ∧
    ((runGrammar_RejectChecks O sFileName sClassName e rx bInverseLogic).2 ≠ [] ↔
      Bool.xor p bInverseLogic = true) := by
  unfold runGrammar_RejectChecks
  rw [hn]
  simp only [ne_eq, not_true_eq_false, if_false, reduceIte]
  unfold rulePredicate at hp
  cases hmem : memberLookup e.members rx.sMember with
  | none => rw [hmem] at hp; exact absurd hp (by simp)
  | some m =>
    rw [hmem] at hp
    simp only [] at hp ⊢
    by_cases h1 : rx.sList ≠ ""
    · rw [if_pos h1] at hp ⊢
      injection hp with hp2
      subst hp2
      exact fire_shape _ _
    · rw [if_neg h1] at hp ⊢
      by_cases h2 : rx.sClass ≠ ""
      · rw [if_pos h2] at hp ⊢
        injection hp with hp2
        subst hp2
        exact fire_shape _ _
      · rw [if_neg h2] at hp ⊢
        by_cases h3 : rx.sPath ≠ ""
        · rw [if_pos h3] at hp ⊢
          by_cases h4 : rx.sPath = "Exists"
          · rw [if_pos h4] at hp ⊢
            injection hp with hp2
            subst hp2
            exact fire_shape _ _
          · rw [if_neg h4] at hp
            exact absurd hp (by simp)
        · rw [if_neg h3] at hp ⊢
          by_cases h5 : rx.sRegExp ≠ "" ∧ stripQuotes m.str ≠ ""
          · rw [if_pos h5] at hp ⊢
            injection hp with hp2
            subst hp2
            exact fire_shape _ _
          · rw [if_neg h5] at hp ⊢
            by_cases h6 : rx.sCount ≠ ""
            · rw [if_pos h6] at hp ⊢
              cases h7 : m.isComplex with
              | false =>
                rw [h7] at hp
                simp only [Bool.false_eq_true, if_false, reduceIte] at hp
                exact absurd hp (by simp)
              | true =>
                rw [h7] at hp
                simp only [reduceIte] at hp ⊢
                injection hp with hp2
                subst hp2
                exact fire_shape _ _
            · rw [if_neg h6] at hp ⊢
              by_cases h8 : rx.sType ≠ ""
              · rw [if_pos h8] at hp ⊢
                injection hp with hp2
                subst hp2
                exact fire_shape _ _
              · rw [if_neg h8] at hp ⊢
                injection hp with hp2
                subst hp2
                exact fire_shape _ _

theorem rejectChecks_nested (O : AnalyzerOracles) (sFileName sClassName : String)
    (e : QMLEntity) (rx : RuleX) (bInverseLogic : Bool)
    (hn : rx.sNestedCount ≠ "") :
    (runGrammar_RejectChecks O sFileName sClassName e rx bInverseLogic).1 =
      (Bool.xor (decide (qtToInt rx.sNestedCount > 0)) bInverseLogic &&
        decide (runGrammar_CountNested sClassName e > qtToInt rx.sNestedCount)) ∧
    ((runGrammar_RejectChecks O sFileName sClassName e rx bInverseLogic).2 ≠ [] ↔
      (runGrammar_RejectChecks O sFileName sClassName e rx bInverseLogic).1 = true) := by
  unfold runGrammar_RejectChecks
  rw [if_pos hn]
  simp only []
  cases hg : Bool.xor (decide (qtToInt rx.sNestedCount > 0)) bInverseLogic with
  | false => simp
  | true =>
    cases hd : decide (runGrammar_CountNested sClassName e > qtToInt rx.sNestedCount) with
    | false =>
      have hd2 : ¬ (qtToInt rx.sNestedCount < runGrammar_CountNested sClassName e) := by
        simpa using hd
      simp [hd2]
    | true =>
      have hd2 : qtToInt rx.sNestedCount < runGrammar_CountNested sClassName e := by
        simpa using hd
      simp [hd2]

/-- Claim C1, amended.  For a rule whose conditions pass: when
`NestedCount` is not set and the selected member check's guard holds
(predicate `p`), the rule fires — and emits exactly then a diagnostic —
iff `p` XOR the invert flag, as the claim states.  When `NestedCount`
is set, however, the invert flag does not invert the predicate: it
gates evaluation (`(allowed > 0) XOR invert`), and the depth comparison
itself is never inverted, so an `<Accept>` `NestedCount` rule with a
positive allowed count can never fire. -/
theorem C1_amended_theorem (O : AnalyzerOracles) (macros : List (String × String))
    (sFileName sClassName : String) (e : QMLEntity) (rule : Rule) (bInverseLogic : Bool)
    (hc : runGrammar_SatisfiesConditions sFileName e rule = true) :
    ((expandRule macros rule).sNestedCount = "" →
      ∀ p, rulePredicate O sFileName e (expandRule macros rule) = some p →
        (runGrammar_Reject O macros sFileName sClassName e rule bInverseLogic).1 = Bool.xor p bInverseLogic ∧
        ((runGrammar_Reject O macros sFileName sClassName e rule bInverseLogic).2 ≠ [] ↔
          Bool.xor p bInverseLogic = true)) ∧
    ((expandRule macros rule).sNestedCount ≠ "" →
      (runGrammar_Reject O macros sFileName sClassName e rule bInverseLogic).1 =
        (Bool.xor (decide (qtToInt (expandRule macros rule).sNestedCount > 0)) bInverseLogic &&
          decide (runGrammar_CountNested sClassName e > qtToInt (expandRule macros rule).sNestedCount)) ∧
      ((runGrammar_Reject O macros sFileName sClassName e rule bInverseLogic).2 ≠ [] ↔
        (runGrammar_Reject O macros sFileName sClassName e rule bInverseLogic).1 = true)) := by
  have hw : runGrammar_Reject O macros sFileName sClassName e rule bInverseLogic =
      runGrammar_RejectChecks O sFileName sClassName e (expandRule macros rule) bInverseLogic := by
    unfold runGrammar_Reject
    rw [hc]
    simp
  constructor
  · intro hn p hp
    rw [hw]
    exact rejectChecks_member O sFileName sClassName e (expandRule macros rule) bInverseLogic hn p hp
  · intro hn
    rw [hw]
    exact rejectChecks_nested O sFileName sClassName e (expandRule macros rule) bInverseLogic hn

/-- Entity for the C1 witness: a property assignment whose `name`
member renders as `abc`. -/
def entC1w : QMLEntity :=
  QMLEntity.mk 1 "QMLPropertyAssignment" "" ""
    [("name", some (QMLEntity.mk 2 "QMLIdentifier" "abc" "" [] false [] (0, 0)))]
    false [] (2, 3)

/-- Rule for the C1 witness: a plain `Member`/`Value` check. -/
def ruleC1w : Rule := { member := "name", value := "abc", text := "no" }

/-- Claim C1, witness: on a concrete `<Reject Member="name"
Value="abc">` rule whose predicate is true, the rule fires and emits a
diagnostic. -/
theorem C1_amended_witness :
    runGrammar_SatisfiesConditions "f.qml" entC1w ruleC1w = true ∧
    (expandRule [] ruleC1w).sNestedCount = "" ∧
    rulePredicate oracleNone "f.qml" entC1w (expandRule [] ruleC1w) = some true ∧
    (runGrammar_Reject oracleNone [] "f.qml" "QMLPropertyAssignment" entC1w ruleC1w false).1 =
      Bool.xor true false ∧
    ((runGrammar_Reject oracleNone [] "f.qml" "QMLPropertyAssignment" entC1w ruleC1w false).2 ≠ [] ↔
      Bool.xor true false = true) := by
  have h1 : runGrammar_SatisfiesConditions "f.qml" entC1w ruleC1w = true := by decide
  have h2 : (expandRule [] ruleC1w).sNestedCount = "" := by decide
  have h3 : rulePredicate oracleNone "f.qml" entC1w (expandRule [] ruleC1w) = some true := by decide
  have main :=
    (C1_amended_theorem oracleNone [] "f.qml" "QMLPropertyAssignment" entC1w ruleC1w false h1).1 h2 true h3
  exact ⟨h1, h2, h3, main.1, main.2⟩

/-- Entity for the C1 counterexample: a lone `QMLItem` (nesting depth 1). -/
def entC1 : QMLEntity := QMLEntity.mk 0 "QMLItem" "" "" [] false [] (3, 5)

/-- Rule for the C1 counterexample: `<Accept NestedCount="2">`. -/
def ruleC1 : Rule := { nestedCount := "2", text := "too deep" }

/-- Claim C1, counterexample.  For the `<Accept NestedCount="2">` rule
on a lone item, the `NestedCount` predicate (depth 1 > 2) is false, so
the claim demands a diagnostic; the code's `(allowed > 0) XOR invert`
gate is false for an `<Accept>` with a positive count, so no diagnostic
is emitted — the claimed XOR equivalence fails. -/
theorem C1_counterexample :
    ¬ (((runGrammar_Reject oracleNone [] "f.qml" "QMLItem" entC1 ruleC1 true).2 ≠ []) ↔
       nestedPredicate "QMLItem" entC1 (qtToInt ((expandRule [] ruleC1).sNestedCount)) = false) := by
  intro h
  have h1 : (runGrammar_Reject oracleNone [] "f.qml" "QMLItem" entC1 ruleC1 true).2 = [] := by decide
  have hcn : runGrammar_CountNested "QMLItem" entC1 = 1 := by
    rw [runGrammar_CountNested]
    simp only [countNestedMembers, entC1, QMLEntity.members, QMLEntity.isComplex,
      QMLEntity.className, QMLEntity.contents]
    norm_num
  have h2 : nestedPredicate "QMLItem" entC1 (qtToInt ((expandRule [] ruleC1).sNestedCount)) = false := by
    unfold nestedPredicate
    rw [hcn]
    decide
  exact h.mpr h2 h1

/-! ### Claim C3: attribute precedence -/

theorem rulePredicate_eq_selected (O : AnalyzerOracles) (sFileName : String)
    (e : QMLEntity) (rx : RuleX) (m : QMLEntity)
    (hmem : memberLookup e.members rx.sMember = some m) :
    rulePredicate O sFileName e rx = evalAttr O sFileName rx m (selectedAttr rx (stripQuotes m.str)) := by
  unfold rulePredicate
  rw [hmem]
  simp only []
  by_cases h1 : rx.sList ≠ ""
  · have hs : selectedAttr rx (stripQuotes m.str) = RuleAttr.listA := by
      simp [selectedAttr, codeAttrOrder, attrApplicable, attrIsSet, h1, List.find?]
    rw [if_pos h1, hs]
    rfl
  · by_cases h2 : rx.sClass ≠ ""
    · have hs : selectedAttr rx (stripQuotes m.str) = RuleAttr.classA := by
        simp [selectedAttr, codeAttrOrder, attrApplicable, attrIsSet, h1, h2, List.find?]
      rw [if_neg h1, if_pos h2, hs]
      rfl
    · by_cases h3 : rx.sPath ≠ ""
      · have hs : selectedAttr rx (stripQuotes m.str) = RuleAttr.pathA := by
          simp [selectedAttr, codeAttrOrder, attrApplicable, attrIsSet, h1, h2, h3, List.find?]
        rw [if_neg h1, if_neg h2, if_pos h3, hs]
        rfl
      · by_cases h5 : rx.sRegExp ≠ "" ∧ stripQuotes m.str ≠ ""
        · have hs : selectedAttr rx (stripQuotes m.str) = RuleAttr.regexpA := by
            simp [selectedAttr, codeAttrOrder, attrApplicable, attrIsSet, h1, h2, h3, h5, List.find?]
          rw [if_neg h1, if_neg h2, if_neg h3, if_pos h5, hs]
          rfl
        · by_cases h6 : rx.sCount ≠ ""
          · have hs : selectedAttr rx (stripQuotes m.str) = RuleAttr.countA := by
              simp [selectedAttr, codeAttrOrder, attrApplicable, attrIsSet, h1, h2, h3, h5, h6, List.find?]
            rw [if_neg h1, if_neg h2, if_neg h3, if_neg h5, if_pos h6, hs]
            rfl
          · by_cases h8 : rx.sType ≠ ""
            · have hs : selectedAttr rx (stripQuotes m.str) = RuleAttr.typeA := by
                simp [selectedAttr, codeAttrOrder, attrApplicable, attrIsSet, h1, h2, h3, h5, h6, h8, List.find?]
              rw [if_neg h1, if_neg h2, if_neg h3, if_neg h5, if_neg h6, if_pos h8, hs]
              rfl
            · have hs : selectedAttr rx (stripQuotes m.str) = RuleAttr.valueA := by
                simp [selectedAttr, codeAttrOrder, attrApplicable, attrIsSet, h1, h2, h3, h5, h6, h8, List.find?]
              rw [if_neg h1, if_neg h2, if_neg h3, if_neg h5, if_neg h6, if_neg h8, hs]
              rfl

theorem rejectChecks_member_none (O : AnalyzerOracles) (sFileName sClassName : String)
    (e : QMLEntity) (rx : RuleX) (bInverseLogic : Bool)
    (hn : rx.sNestedCount = "")
    (hp : rulePredicate O sFileName e rx = none) :
    runGrammar_RejectChecks O sFileName sClassName e rx bInverseLogic = (false, []) := by
  unfold runGrammar_RejectChecks
  rw [hn]
  simp only [ne_eq, not_true_eq_false, if_false, reduceIte]
  unfold rulePredicate at hp
  cases hmem : memberLookup e.members rx.sMember with
  | none => rfl
  | some m =>
    rw [hmem] at hp
    simp only [] at hp
    simp only []
    by_cases h1 : rx.sList ≠ ""
    · rw [if_pos h1] at hp; exact absurd hp (by simp)
    · rw [if_neg h1] at hp ⊢
      by_cases h2 : rx.sClass ≠ ""
      · rw [if_pos h2] at hp; exact absurd hp (by simp)
      · rw [if_neg h2] at hp ⊢
        by_cases h3 : rx.sPath ≠ ""
        · rw [if_pos h3] at hp ⊢
          by_cases h4 : rx.sPath = "Exists"
          · rw [if_pos h4] at hp; exact absurd hp (by simp)
          · rw [if_neg h4]
        · rw [if_neg h3] at hp ⊢
          by_cases h5 : rx.sRegExp ≠ "" ∧ stripQuotes m.str ≠ ""
          · rw [if_pos h5] at hp; exact absurd hp (by simp)
          · rw [if_neg h5] at hp ⊢
            by_cases h6 : rx.sCount ≠ ""
            · rw [if_pos h6] at hp ⊢
              cases h7 : m.isComplex with
              | false => simp
              | true =>
                rw [h7] at hp
                simp only [reduceIte] at hp
                exact absurd hp (by simp)
            · rw [if_neg h6] at hp ⊢
              by_cases h8 : rx.sType ≠ ""
              · rw [if_pos h8] at hp; exact absurd hp (by simp)
              · rw [if_neg h8] at hp; exact absurd hp (by simp)

/-- Claim C3, amended.  When a rule sets several of the attributes, the
check applied is the first applicable one in the code's else-if order —
`List`, `Class`, `Path`, `RegExp` (which additionally requires a
non-empty member string), `Count`, `Type`, then the default `Value`
comparison — not the spec table's order (Value first, Path last): the
rule fires iff that first applicable check's predicate, XOR the invert
flag (and does not fire when its inner guard fails). -/
theorem C3_amended_theorem (O : AnalyzerOracles) (sFileName sClassName : String)
    (e : QMLEntity) (rx : RuleX) (bInverseLogic : Bool) (m : QMLEntity)
    (hn : rx.sNestedCount = "")
    (hmem : memberLookup e.members rx.sMember = some m) :
    (runGrammar_RejectChecks O sFileName sClassName e rx bInverseLogic).1 =
      (match evalAttr O sFileName rx m (selectedAttr rx (stripQuotes m.str)) with
       | some p => Bool.xor p bInverseLogic
       | none => false) := by
  have hsel := rulePredicate_eq_selected O sFileName e rx m hmem
  cases hres : evalAttr O sFileName rx m (selectedAttr rx (stripQuotes m.str)) with
  | some p =>
    exact (rejectChecks_member O sFileName sClassName e rx bInverseLogic hn p (hsel.trans hres)).1
  | none =>
    rw [rejectChecks_member_none O sFileName sClassName e rx bInverseLogic hn (hsel.trans hres)]

/-- Member entity of the C3 instances: an identifier rendering as `a`. -/
def entC3m : QMLEntity := QMLEntity.mk 2 "QMLIdentifier" "a" "" [] false [] (0, 0)

/-- Entity of the C3 instances: a property assignment with that `name`. -/
def entC3 : QMLEntity :=
  QMLEntity.mk 1 "QMLPropertyAssignment" "" "" [("name", some entC3m)] false [] (1, 2)

/-- Rule of the C3 counterexample: both `Value` and `List` set. -/
def ruleC3 : Rule := { member := "name", value := "x", list := "a,b", text := "t" }

/-- Claim C3, counterexample.  A `<Reject Member="name" Value="x"
List="a,b">` rule on a member rendering as `a` fires (the code's chain
applies the List check, and `a` is in the list), although the first
attribute in the spec's table order is Value, whose predicate
(`a = x`) is false — so the table order is not the code's order. -/
theorem C3_counterexample :
    (runGrammar_Reject oracleNone [] "f.qml" "QMLPropertyAssignment" entC3 ruleC3 false).1 = true ∧
    evalAttr oracleNone "f.qml" (expandRule [] ruleC3) entC3m RuleAttr.valueA = some false ∧
    tableSelectedAttr (expandRule [] ruleC3) = RuleAttr.valueA ∧
    selectedAttr (expandRule [] ruleC3) (stripQuotes entC3m.str) = RuleAttr.listA ∧
    RuleAttr.valueA ≠ RuleAttr.listA := by
  refine ⟨by decide, by decide, by decide, by decide, by decide⟩

/-- Claim C3, witness for the amended theorem at the counterexample's
rule: the applied check is the List check and the rule fires. -/
theorem C3_amended_witness :
    (expandRule [] ruleC3).sNestedCount = "" ∧
    memberLookup entC3.members (expandRule [] ruleC3).sMember = some entC3m ∧
    (runGrammar_RejectChecks oracleNone "f.qml" "QMLPropertyAssignment" entC3
        (expandRule [] ruleC3) false).1 =
      (match evalAttr oracleNone "f.qml" (expandRule [] ruleC3) entC3m
          (selectedAttr (expandRule [] ruleC3) (stripQuotes entC3m.str)) with
       | some p => Bool.xor p false
       | none => false) := by
  have h1 : (expandRule [] ruleC3).sNestedCount = "" := by decide
  have h2 : memberLookup entC3.members (expandRule [] ruleC3).sMember = some entC3m := by rfl
  exact ⟨h1, h2,
    C3_amended_theorem oracleNone "f.qml" "QMLPropertyAssignment" entC3
      (expandRule [] ruleC3) false entC3m h1 h2⟩

/-! ### Claim C2: evaluation order and recursion pruning -/

theorem evalRuleList_events (O : AnalyzerOracles) (macros : List (String × String))
    (sFileName sClassName : String) (e : QMLEntity) (bInverseLogic : Bool) (cIdx : Nat) :
    ∀ rIdx rules, (evalRuleList O macros sFileName sClassName e bInverseLogic cIdx rIdx rules).1 =
      (List.enumFrom rIdx rules).map (fun ir =>
        REv.ruleEval e.eid cIdx ir.1 bInverseLogic
          (runGrammar_Reject O macros sFileName sClassName e ir.2 bInverseLogic).1) := by
  intro rIdx rules
  induction rules generalizing rIdx with
  | nil => rfl
  | cons r rs ih =>
    simp only [evalRuleList, List.enumFrom, List.map]
    rw [← ih (rIdx + 1)]

theorem specRuleEvents_eq (O : AnalyzerOracles) (macros : List (String × String))
    (sFileName : String) (e : QMLEntity) (cIdx : Nat) (isAccept : Bool)
    (cls : String) (rules : List Rule) :
    specRuleEvents O macros sFileName e cIdx isAccept cls rules =
      (evalRuleList O macros sFileName cls e isAccept cIdx 0 rules).1 := by
  rw [evalRuleList_events]
  rfl

theorem evalChecks_events (O : AnalyzerOracles) (macros : List (String × String))
    (sFileName : String) (e : QMLEntity) :
    ∀ cIdx cks, (evalChecks O macros sFileName e cIdx cks).1 =
      (List.enumFrom cIdx cks).flatMap (fun ic =>
        if ic.2.classStr = e.className then
          specRuleEvents O macros sFileName e ic.1 false ic.2.classStr ic.2.rejects ++
          specRuleEvents O macros sFileName e ic.1 true ic.2.classStr ic.2.accepts
        else []) := by
  intro cIdx cks
  induction cks generalizing cIdx with
  | nil => rfl
  | cons ck cks ih =>
    simp only [evalChecks, List.enumFrom, List.flatMap_cons]
    by_cases hcl : ck.classStr = e.className
    · rw [if_pos hcl, if_pos hcl]
      rw [specRuleEvents_eq, specRuleEvents_eq]
      rcases evalRuleList O macros sFileName ck.classStr e false cIdx 0 ck.rejects with ⟨evR, dR, fR⟩
      rcases evalRuleList O macros sFileName ck.classStr e true cIdx 0 ck.accepts with ⟨evA, dA, fA⟩
      rw [← ih (cIdx + 1)]
    · rw [if_neg hcl, if_neg hcl]
      rw [← ih (cIdx + 1)]
      simp

/-- Claim C2, amended.  At every node the rule evaluations are: the
matching `<Check>` blocks in document order, each contributing all its
`<Reject>` evaluations (in order) and then all its `<Accept>`
evaluations — so rejects precede accepts within each block, every rule
of every matching block is evaluated exactly once regardless of earlier
firings, but an `<Accept>` of an earlier block precedes a `<Reject>` of
a later block.  The engine recurses into the node's members and (for
complex entities) ordered contents if and only if no rule fired. -/
theorem C2_amended_theorem (O : AnalyzerOracles) (macros : List (String × String))
    (sFileName : String) (g : Grammar) (e : QMLEntity) :
    (evalChecks O macros sFileName e 0 g.checks).1 = specNodeEvents O macros sFileName g e ∧
    runGrammar_Recurse O macros sFileName g e =
      (REv.enter e.eid ::
         (evalChecks O macros sFileName e 0 g.checks).1 ++
         (if (evalChecks O macros sFileName e 0 g.checks).2.2 then [] else
           (recurseMembers O macros sFileName g e.members).1 ++
           (if e.isComplex then (recurseContents O macros sFileName g e.contents).1 else [])),
       (evalChecks O macros sFileName e 0 g.checks).2.1 ++
         (if (evalChecks O macros sFileName e 0 g.checks).2.2 then [] else
           (recurseMembers O macros sFileName g e.members).2 ++
           (if e.isComplex then (recurseContents O macros sFileName g e.contents).2 else []))) := by
  constructor
  · rw [evalChecks_events]
    rfl
  · rw [runGrammar_Recurse]
    rcases hE : evalChecks O macros sFileName e 0 g.checks with ⟨evs, ds, f⟩
    simp only []
    cases f with
    | true => simp
    | false =>
      rcases hM : recurseMembers O macros sFileName g e.members with ⟨evM, dM⟩
      cases hic : e.isComplex with
      | false => simp
      | true =>
        rcases hC : recurseContents O macros sFileName g e.contents with ⟨evC, dC⟩
        simp

/-- Grammar of the C2 counterexample: two `<Check Class="K">` blocks,
each with one `<Reject>` and one `<Accept>`. -/
def gC2 : Grammar :=
  { checks := [{ classStr := "K", rejects := [{}], accepts := [{}] },
               { classStr := "K", rejects := [{}], accepts := [{}] }] }

/-- Entity of the C2 counterexample: a lone node of class `K`. -/
def entC2 : QMLEntity := QMLEntity.mk 7 "K" "" "" [] false [] (0, 0)

/-- Claim C2, counterexample.  With two matching `<Check>` blocks the
evaluation order at the node is reject, accept, reject, accept: the
`<Accept>` of the first block is evaluated before the `<Reject>` of the
second block, so it is not the case that all `<Reject>` rules of the
matching blocks are evaluated before all `<Accept>` rules. -/
theorem C2_counterexample :
    (runGrammar_Recurse oracleNone [] "f.qml" gC2 entC2).1 =
      [REv.enter 7,
       REv.ruleEval 7 0 0 false false, REv.ruleEval 7 0 0 true false,
       REv.ruleEval 7 1 0 false false, REv.ruleEval 7 1 0 true false] ∧
    allRejectsBeforeAccepts ((runGrammar_Recurse oracleNone [] "f.qml" gC2 entC2).1) = false := by
  have h : (runGrammar_Recurse oracleNone [] "f.qml" gC2 entC2).1 =
      [REv.enter 7,
       REv.ruleEval 7 0 0 false false, REv.ruleEval 7 0 0 true false,
       REv.ruleEval 7 1 0 false false, REv.ruleEval 7 1 0 true false] := by
    rw [runGrammar_Recurse]
    have hE : evalChecks oracleNone [] "f.qml" entC2 0 gC2.checks =
        ([REv.ruleEval 7 0 0 false false, REv.ruleEval 7 0 0 true false,
          REv.ruleEval 7 1 0 false false, REv.ruleEval 7 1 0 true false], [], false) := by
      decide
    rw [hE]
    have hM : recurseMembers oracleNone [] "f.qml" gC2 entC2.members = ([], []) := by
      rw [show entC2.members = [] from rfl]
      rw [recurseMembers]
    rw [hM]
    have hic : entC2.isComplex = false := rfl
    rw [hic]
    simp [entC2, QMLEntity.eid]
  refine ⟨h, ?_⟩
  rw [h]
  decide

/-! ### Claim C6: condition semantics -/

/-- Claim C6, amended.  On a present, non-null member: when `Value` is
set, the condition passes iff the member's quote-stripped string equals
`Value` XOR `Negate="true"` — `Negate` inverts, as claimed.  When
`Value` is unset and `Empty` is set, however, `Negate` is ignored: the
condition passes iff the member's string is empty and `Empty="true"`. -/
theorem C6_amended_theorem (sFileName : String) (e : QMLEntity) (c : Condition)
    (m : QMLEntity)
    (hmem : memberLookup e.members (strLower c.member) = some m) :
    (c.value ≠ "" →
      (conditionPasses sFileName e c = true ↔
        Bool.xor (decide (stripQuotes m.str = c.value)) (decide (strLower c.negate = "true")) = true)) ∧
    (c.value = "" → strLower c.empty ≠ "" →
      (conditionPasses sFileName e c = true ↔
        (stripQuotes m.str = "" ∧ strLower c.empty = "true"))) := by
  unfold conditionPasses
  simp only []
  rw [hmem]
  simp only []
  constructor
  · intro hv
    rw [if_pos hv]
    by_cases he : stripQuotes m.str = c.value <;> by_cases hng : strLower c.negate = "true" <;>
      simp [he, hng]
  · intro hv hemp
    rw [if_neg (by simp [hv]), if_pos hemp]
    by_cases hc2 : stripQuotes m.str = "" ∧ strLower c.empty = "true" <;> simp [hc2]

/-- Entity of the C6 counterexample: its `name` member renders empty. -/
def entC6 : QMLEntity :=
  QMLEntity.mk 3 "QMLPropertyAssignment" "" ""
    [("name", some (QMLEntity.mk 4 "QMLIdentifier" "" "" [] false [] (0, 0)))]
    false [] (0, 0)

/-- Condition of the C6 counterexample: `Empty="true" Negate="true"`. -/
def condC6 : Condition := { member := "name", empty := "true", negate := "true" }

/-- Claim C6, counterexample.  For `<Condition Member="name"
Empty="true" Negate="true"/>` on a member whose string is empty, the
claim says `Negate` inverts the emptiness check, so the condition
fails; the code ignores `Negate` in the `Empty` branch and the
condition passes. -/
theorem C6_counterexample :
    conditionPasses "f.qml" entC6 condC6 = true ∧
    claimedConditionPass entC6 condC6 = some false := by
  refine ⟨by decide, by decide⟩

/-- Entity of the C6 witness: its `name` member renders as `abc`. -/
def entC6w : QMLEntity :=
  QMLEntity.mk 5 "QMLPropertyAssignment" "" ""
    [("name", some (QMLEntity.mk 6 "QMLIdentifier" "abc" "" [] false [] (0, 0)))]
    false [] (0, 0)

/-- Condition of the C6 witness: a plain `Value` comparison. -/
def condC6w : Condition := { member := "name", value := "abc" }

/-- Claim C6, witness: for a concrete `Value` condition on a member
rendering as `abc` the amended equivalence holds and the condition
passes. -/
theorem C6_amended_witness :
    condC6w.value ≠ "" ∧
    (conditionPasses "f.qml" entC6w condC6w = true ↔
      Bool.xor (decide (stripQuotes (QMLEntity.mk 6 "QMLIdentifier" "abc" "" [] false [] (0, 0)).str = condC6w.value))
        (decide (strLower condC6w.negate = "true")) = true) := by
  have h1 : memberLookup entC6w.members (strLower condC6w.member) =
      some (QMLEntity.mk 6 "QMLIdentifier" "abc" "" [] false [] (0, 0)) := by rfl
  have h2 : condC6w.value ≠ "" := by decide
  exact ⟨h2, (C6_amended_theorem ("f.qml") entC6w condC6w _ h1).1 h2⟩

/-! ### Claim C7: member-map key casing -/

/-- A minimal entity to stand as the children of a binary operation. -/
def entDummy : QMLEntity := QMLEntity.mk 9 "QMLEntity" "" "" [] false [] (0, 0)

/-- Claim C7.  `QMLBinaryOperation::members()` returns the keys `Left`
and `Right` — not entirely lowercase — so the rule engine's lower-cased
`Member` attribute (`left`, `right`) can never match them, although the
analyzer's own class documentation lists the members as lowercase
`left`/`right`. -/
theorem C7_code_eval :
    (QMLBinaryOperation.members ⟨some entDummy, some entDummy⟩).map Prod.fst = ["Left", "Right"] ∧
    ((QMLBinaryOperation.members ⟨some entDummy, some entDummy⟩).map Prod.fst).all strIsLower = false ∧
    memberLookup (QMLBinaryOperation.members ⟨some entDummy, some entDummy⟩) (strLower "Left") = none ∧
    memberLookup (QMLBinaryOperation.members ⟨some entDummy, some entDummy⟩) (strLower "Right") = none := by
  refine ⟨by decide, by decide, by rfl, by rfl⟩

/-! ### Claim C8: macro expansion -/

/-- Claim C8, counterexample.  A macro with the empty value is skipped
by `processMacros` (the `count() > 0` guard), so `$FOO$` is left in the
text, while textual substitution of the empty value would delete it. -/
theorem C8_counterexample :
    processMacros [("FOO", "")] "$FOO$" = "$FOO$" ∧
    replaceAllS "$FOO$" "$FOO$" "" = "" ∧
    ("$FOO$" : String) ≠ "" := by
  refine ⟨by decide, by decide, by decide⟩

/-- Claim C8, amended.  For a macro whose value is non-empty (and, as
the claim already assumes, free of `$`), expanding a rule attribute
equals the one-pass textual substitution of every literal occurrence of
`$NAME$` by the value. -/
theorem C8_amended_theorem (nm v S : String) (hv : v ≠ "")
    (hd : containsSub v "$" = false) :
    processMacros [(nm, v)] S = replaceAllS S ("$" ++ nm ++ "$") v := by
  unfold processMacros
  simp only [List.foldl_cons, List.foldl_nil]
  cases hc : containsSub S ("$" ++ nm ++ "$") with
  | true =>
    simp only [hc, if_true, reduceIte]
    rw [if_pos (string_length_pos_of_ne_empty v hv)]
  | false =>
    simp only [hc, Bool.false_eq_true, if_false, reduceIte]
    exact (replaceAll_of_not_contains S ("$" ++ nm ++ "$") v hc).symm

/-- Claim C8, witness: expanding `x$FOO$y` with macro `FOO = bar`. -/
theorem C8_amended_witness :
    (("bar" : String) ≠ "" ∧ containsSub "bar" "$" = false) ∧
    processMacros [("FOO", "bar")] "x$FOO$y" = replaceAllS "x$FOO$y" ("$" ++ "FOO" ++ "$") "bar" := by
  refine ⟨⟨by decide, by decide⟩, ?_⟩
  exact C8_amended_theorem ("FOO") ("bar") ("x$FOO$y") (by decide) (by decide)

/-! ### Claim C9: syntax-error handling

`QMLTreeContext::parse` and `QMLAnalyzer::analyzeFile` are modelled as
an event-producing state transformer.  The bison parser run
(`parse_Internal`/`yyparse`) is abstracted by the `outcome` oracle:
`some er` means `yyerror`/`showError` fired with that error object
(setting `m_eError = peSyntaxError` and `m_tErrorObject`), `none` means
the file parsed cleanly.  `None`-valued context error models the
cleared `m_tErrorObject`.  The rewrite/import options play no part in
the claim and are not modelled. -/

/-- `QMLTreeContext::EParseError`. -/
inductive EParseError where
  | peSuccess
  | peNoFile
  | peSyntaxError
deriving DecidableEq

/-- Events of the parse/analyze driver. -/
inductive PEv where
  | parsingStarted (f : String)
  | parseInternal (f : String)
  | solveSymbols (f : String)
  | solveReferences (f : String)
  | solveSymbolUsages (f : String)
  | parsingFinished (f : String)
  | runGrammarOn (f : String)
  | appendErr (e : QMLAnalyzerError)
deriving DecidableEq

/-- A `QMLFile` as the parse loop sees it: its name and parsed flag. -/
structure CtxFile where
  name : String
  parsed : Bool
deriving DecidableEq

/-- The `foreach` over `m_vFiles` in `QMLTreeContext::parse`: each
unparsed file is parsed (`m_eError` overwritten with its outcome, the
error object written by `showError` on failure), then — regardless of
the outcome — `solveSymbols`, `solveReferences` and
`solveSymbolUsages` run and the file is marked parsed. -/
def contextParseLoop (outcome : String → Option QMLAnalyzerError) :
    EParseError → Option QMLAnalyzerError → List CtxFile →
    EParseError × Option QMLAnalyzerError × List CtxFile × List PEv
  | err, eobj, [] => (err, eobj, [], [])
  | err, eobj, f :: fs =>
    if f.parsed then
      match contextParseLoop outcome err eobj fs with
      | (e2, o2, fs2, evs) => (e2, o2, f :: fs2, evs)
    else
      match outcome f.name with
      | some er =>
        match contextParseLoop outcome EParseError.peSyntaxError (some er) fs with
        | (e2, o2, fs2, evs) =>
          (e2, o2, { name := f.name, parsed := true } :: fs2,
           PEv.parsingStarted f.name :: PEv.parseInternal f.name :: PEv.solveSymbols f.name ::
           PEv.solveReferences f.name :: PEv.solveSymbolUsages f.name ::
           PEv.parsingFinished f.name :: evs)
      | none =>
        match contextParseLoop outcome EParseError.peSuccess eobj fs with
        | (e2, o2, fs2, evs) =>
          (e2, o2, { name := f.name, parsed := true } :: fs2,
           PEv.parsingStarted f.name :: PEv.parseInternal f.name :: PEv.solveSymbols f.name ::
           PEv.solveReferences f.name :: PEv.solveSymbolUsages f.name ::
           PEv.parsingFinished f.name :: evs)

/-- `QMLTreeContext::parse`: reset `m_eError` and clear the error
object, then run the file loop. -/
def contextParse (outcome : String → Option QMLAnalyzerError) (files : List CtxFile) :
    EParseError × Option QMLAnalyzerError × List CtxFile × List PEv :=
  contextParseLoop outcome EParseError.peSuccess none files

/-- Analyzer state: the context's file list and `m_vErrors`. -/
structure AnalyzerState where
  files : List CtxFile
  errors : List QMLAnalyzerError
deriving DecidableEq

/-- `QMLTreeContext::addFile` via `fileByFileName`: append a fresh
unparsed file unless the name is already known. -/
def addFile (files : List CtxFile) (f : String) : List CtxFile :=
  if files.any (fun x => x.name = f) then files
  else files ++ [{ name := f, parsed := false }]

/-- `QMLAnalyzer::analyzeFile`: add the file, parse; on success run the
rule engine on the file, otherwise append the context's error object to
`m_vErrors`.  Returns the new state, the context's error object and the
event trace. -/
def analyzeFile (outcome : String → Option QMLAnalyzerError) (st : AnalyzerState)
    (sFileName : String) : AnalyzerState × Option QMLAnalyzerError × List PEv :=
  match contextParse outcome (addFile st.files sFileName) with
  | (res, eobj, files2, evs) =>
    if res = EParseError.peSuccess then
      ({ files := files2, errors := st.errors }, eobj, evs ++ [PEv.runGrammarOn sFileName])
    else
      let er := match eobj with
        | some er => er
        | none => { fileName := "", pos := (0, 0), text := "" }
      ({ files := files2, errors := st.errors ++ [er] }, eobj, evs ++ [PEv.appendErr er])

theorem contextParseLoop_allParsed (outcome : String → Option QMLAnalyzerError)
    (f : String) (er : QMLAnalyzerError) (hf : outcome f = some er) :
    ∀ fs : List CtxFile, (∀ x ∈ fs, x.parsed = true) → ∀ err eobj,
      contextParseLoop outcome err eobj (fs ++ [{ name := f, parsed := false }]) =
        (EParseError.peSyntaxError, some er, fs ++ [{ name := f, parsed := true }],
         [PEv.parsingStarted f, PEv.parseInternal f, PEv.solveSymbols f,
          PEv.solveReferences f, PEv.solveSymbolUsages f, PEv.parsingFinished f]) := by
  intro fs
  induction fs with
  | nil =>
    intro _ err eobj
    simp [contextParseLoop, hf]
  | cons x fs ih =>
    intro hall err eobj
    have hx : x.parsed = true := hall x (by simp)
    simp only [List.cons_append, contextParseLoop, hx, if_true, List.append_eq]
    rw [ih (fun y hy => hall y (by simp [hy])) err eobj]

/-- Claim C9, amended.  For a file on which the parser reports a syntax
error (in a context whose other files are already parsed): the
context's error object is populated, exactly one entry is appended to
the analyzer's error list, and the rule engine is not run on the file —
but the symbol-resolution passes (`solveSymbols`, `solveReferences`,
`solveSymbolUsages`) still run on it, because `parse()` invokes them
unconditionally after `parse_Internal`. -/
theorem C9_amended_theorem (outcome : String → Option QMLAnalyzerError)
    (st : AnalyzerState) (f : String) (er : QMLAnalyzerError)
    (hf : outcome f = some er)
    (hparsed : ∀ x ∈ st.files, x.parsed = true)
    (hnew : ∀ x ∈ st.files, x.name ≠ f) :
    (analyzeFile outcome st f).2.1 = some er ∧
    (analyzeFile outcome st f).1.errors = st.errors ++ [er] ∧
    PEv.runGrammarOn f ∉ (analyzeFile outcome st f).2.2 ∧
    PEv.solveSymbols f ∈ (analyzeFile outcome st f).2.2 ∧
    PEv.solveReferences f ∈ (analyzeFile outcome st f).2.2 ∧
    PEv.solveSymbolUsages f ∈ (analyzeFile outcome st f).2.2 := by
  have haf : addFile st.files f = st.files ++ [{ name := f, parsed := false }] := by
    unfold addFile
    rw [if_neg]
    simp only [List.any_eq_true, decide_eq_true_eq, not_exists]
    intro x hx
    exact hnew x hx.1 hx.2
  unfold analyzeFile contextParse
  rw [haf, contextParseLoop_allParsed outcome f er hf st.files hparsed _ _]
  simp

/-- Outcome oracle of the C9 instances: `a.qml` has a syntax error. -/
def outC9 : String → Option QMLAnalyzerError :=
  fun s =>
    if s = "a.qml" then some { fileName := "a.qml", pos := (4, 2), text := "syntax error" }
    else none

/-- Claim C9, counterexample.  On a file with a syntax error the trace
still contains the `solveSymbols` resolver pass for that file — the
claim says the file is skipped for symbol resolution. -/
theorem C9_counterexample :
    outC9 "a.qml" = some { fileName := "a.qml", pos := (4, 2), text := "syntax error" } ∧
    PEv.solveSymbols "a.qml" ∈ (analyzeFile outC9 ⟨[], []⟩ "a.qml").2.2 := by
  refine ⟨by decide, by decide⟩

/-- Claim C9, witness for the amended theorem: a context with one
already-parsed file `b.qml` and the erroring file `a.qml`. -/
theorem C9_amended_witness :
    outC9 "a.qml" = some { fileName := "a.qml", pos := (4, 2), text := "syntax error" } ∧
    (analyzeFile outC9 ⟨[⟨"b.qml", true⟩], []⟩ "a.qml").2.1 =
      some { fileName := "a.qml", pos := (4, 2), text := "syntax error" } ∧
    (analyzeFile outC9 ⟨[⟨"b.qml", true⟩], []⟩ "a.qml").1.errors =
      [] ++ [{ fileName := "a.qml", pos := (4, 2), text := "syntax error" }] ∧
    PEv.runGrammarOn "a.qml" ∉ (analyzeFile outC9 ⟨[⟨"b.qml", true⟩], []⟩ "a.qml").2.2 ∧
    PEv.solveSymbols "a.qml" ∈ (analyzeFile outC9 ⟨[⟨"b.qml", true⟩], []⟩ "a.qml").2.2 := by
  have h := C9_amended_theorem outC9 ⟨[⟨"b.qml", true⟩], []⟩ ("a.qml")
    { fileName := "a.qml", pos := (4, 2), text := "syntax error" }
    (by decide) (by decide) (by decide)
  exact ⟨by decide, h.1, h.2.1, h.2.2.1, h.2.2.2.1⟩
